import Mathlib

/-!
# mandelzoom: the escape-time kernel and the field renderer

A shallow embedding of `mandelbrot.go`.

* `float64` values are elements of a type `α` that comes with the operations the
  source uses on them (`Arith α`).  Nothing is assumed about these operations, so a
  statement proved for every `Arith α` also holds for IEEE-754 doubles, NaN and the
  infinities included.
* `float64 : Arith F64` is IEEE-754 binary64 with round to nearest, ties to even, every
  operation rounded on its own: the arithmetic of the code.
* `exact : Arith ℚ` is exact rational arithmetic, the arithmetic of the real numbers.
  It agrees with `float64` only where no operation rounds; statements made there say
  so.
* Go `int` loop counters and slice indices are `Nat` (the largest index the program
  forms is below `4 * 500 * 500`).
* A byte is a `Nat`; `[]byte` and `[]color.RGBA` are lists.
* An index out of range panics in Go: slice reads and writes return `Option`, and
  `none` stands for the panic.
* The goroutines of `updateOffscreen` are modelled by running the row bodies one after
  another in a given order (`runRows`); `updateOffscreen` uses the ascending order.
  `time.Now`, `time.Since` and the `ebiten` image are outside the model.
-/

namespace Mandelzoom

/-! ## Constants (`mandelbrot.go`, lines 16-20) -/

def screenWidth : Nat := 500
def screenHeight : Nat := 500
def maxIt : Nat := 100

/-! ## Arithmetic on `float64` -/

/-- The operations on `float64` that the program uses.  `lit q` is the value of the
numeric constant `q` or of the conversion `float64(i)`; `gt a b` is the comparison
`a > b`. -/
structure Arith (α : Type) where
  lit : ℚ → α
  add : α → α → α
  sub : α → α → α
  mul : α → α → α
  div : α → α → α
  gt : α → α → Bool

/-- Exact arithmetic on the rationals. -/
def exact : Arith ℚ where
  lit := fun q => q
  add := fun a b => a + b
  sub := fun a b => a - b
  mul := fun a b => a * b
  div := fun a b => a / b
  gt := fun a b => decide (a > b)

/-! ## IEEE-754 binary64, the type `float64` of Go -/

/-- A value of binary64.  A finite value is a sign and a magnitude, the magnitude counted
in units of `2^-1074`, the least positive double: `fin neg k` is `(-1)^neg * k * 2^-1074`,
so `fin false 0` is `+0` and `fin true 0` is `-0`.  Every finite double is of this form
with `k < 2^2098`.  All NaNs are one value. -/
inductive F64 where
  | nan : F64
  | inf (neg : Bool) : F64
  | fin (neg : Bool) (k : Nat) : F64
deriving DecidableEq, Repr

/-- The integer nearest to `n / d`, ties to the even one. -/
def roundQuot (n d : Nat) : Nat :=
  let q := n / d
  let r := n % d
  if 2 * r < d then q else if d < 2 * r then q + 1 else if q % 2 = 0 then q else q + 1

/-- The least `s'` among `s`, `s + step`, `s + 2*step`, ... with
`⌊n / (d * 2^s')⌋ < 2^53`, looking at no more than `fuel` of them. -/
def shiftSearch (n d step : Nat) : Nat → Nat → Nat
  | 0, s => s
  | fuel + 1, s =>
    if n / (d * 2 ^ s) < 2 ^ 53 then s else shiftSearch n d step fuel (s + step)

/-- The least `s` with `⌊n / (d * 2^s)⌋ < 2^53`: the number of low bits of `⌊n / d⌋` that
a 53-bit significand cannot hold.  A first search in steps of 64 finds a bound `c`; the
condition, once true, stays true for larger `s`, so the least `s` is above `c - 64`, and
a second search in steps of 1 starts from `c - 63`.  (`n` steps are enough for either
search, `n / 2^n` being 0.) -/
def sigShift (n d : Nat) : Nat :=
  shiftSearch n d 1 n (shiftSearch n d 64 n 0 - 63)

/-- The magnitude `n / d` (in units of `2^-1074`) rounded to 53 significant bits, to
nearest, ties to even, with no bound on the exponent. -/
def roundUnits (n d : Nat) : Nat :=
  roundQuot n (d * 2 ^ sigShift n d) * 2 ^ sigShift n d

/-- The double nearest to `(-1)^neg * n / d` units: the rounded magnitude, or an infinity
when that reaches `2^1024`, which is `2^2098` units. -/
def F64.round (neg : Bool) (n d : Nat) : F64 :=
  if roundUnits n d < 2 ^ 2098 then .fin neg (roundUnits n d) else .inf neg

/-- The conversion of a numeric constant, or of an integer, to `float64`. -/
def F64.ofRat (q : ℚ) : F64 :=
  F64.round (decide (q < 0)) (q.num.natAbs * 2 ^ 1074) q.den

/-- Negation. -/
def F64.neg : F64 → F64
  | .nan => .nan
  | .inf a => .inf (!a)
  | .fin a k => .fin (!a) k

/-- Addition: the exact sum, rounded; a zero sum of opposite signs is `+0`. -/
def F64.add : F64 → F64 → F64
  | .nan, _ => .nan
  | _, .nan => .nan
  | .inf a, .inf b => if a = b then .inf a else .nan
  | .inf a, .fin _ _ => .inf a
  | .fin _ _, .inf b => .inf b
  | .fin a k, .fin b l =>
    if a = b then F64.round a (k + l) 1
    else if l < k then F64.round a (k - l) 1
    else if k < l then F64.round b (l - k) 1
    else .fin false 0

/-- Subtraction, `x - y = x + (-y)`. -/
def F64.sub (x y : F64) : F64 := F64.add x (F64.neg y)

/-- Multiplication: the exact product `k * l * 2^-1074` units, rounded; the sign is
negative when the signs differ. -/
def F64.mul : F64 → F64 → F64
  | .nan, _ => .nan
  | _, .nan => .nan
  | .inf a, .inf b => .inf (a != b)
  | .inf a, .fin b l => if l = 0 then .nan else .inf (a != b)
  | .fin a k, .inf b => if k = 0 then .nan else .inf (a != b)
  | .fin a k, .fin b l => F64.round (a != b) (k * l) (2 ^ 1074)

/-- Division: the exact quotient `k * 2^1074 / l` units, rounded. -/
def F64.div : F64 → F64 → F64
  | .nan, _ => .nan
  | _, .nan => .nan
  | .inf _, .inf _ => .nan
  | .inf a, .fin b _ => .inf (a != b)
  | .fin a _, .inf b => .fin (a != b) 0
  | .fin a k, .fin b l =>
    if l = 0 then (if k = 0 then .nan else .inf (a != b))
    else F64.round (a != b) (k * 2 ^ 1074) l

/-- The signed number of units of a finite value. -/
def F64.toInt (neg : Bool) (k : Nat) : Int := if neg then -(k : Int) else (k : Int)

/-- The comparison `x > y`: false when either side is NaN; `+0` and `-0` are equal. -/
def F64.gt : F64 → F64 → Bool
  | .nan, _ => false
  | _, .nan => false
  | .inf a, .inf b => !a && b
  | .inf a, .fin _ _ => !a
  | .fin _ _, .inf b => b
  | .fin a k, .fin b l => decide (F64.toInt b l < F64.toInt a k)

/-- The arithmetic of the code: binary64. -/
def float64 : Arith F64 where
  lit := F64.ofRat
  add := F64.add
  sub := F64.sub
  mul := F64.mul
  div := F64.div
  gt := F64.gt

/-! ## The escape-time kernel (`iter`, lines 43-57) -/

/-- The `for i := 0; i < maxIt; i++` loop of `iter`, entered with loop counter `i` and
`n = maxIt - i` passes left, the variables `x`, `y` holding the current point.  A pass
computes `xy`, `xx`, `yy`, returns `i` when `xx + yy > 4`, and otherwise updates `x`,
`y` and goes on with `i + 1`.  When no pass is left the loop is over and the function
returns `maxIt`. -/
def iterLoop {α : Type} (A : Arith α) (cx cy : α) : Nat → Nat → α → α → Nat
  | 0, _, _, _ => maxIt
  | n + 1, i, x, y =>
    let xy := A.mul x y
    let xx := A.mul x x
    let yy := A.mul y y
    if A.gt (A.add xx yy) (A.lit 4) = true then i
    else iterLoop A cx cy n (i + 1) (A.add (A.sub xx yy) cx) (A.add (A.mul (A.lit 2) xy) cy)

/-- The function `iter(cx, cy float64) int`. -/
def iter {α : Type} (A : Arith α) (cx cy : α) : Nat :=
  iterLoop A cx cy maxIt 0 (A.lit 0) (A.lit 0)

/-- The variables of `iter` that are live at the head of the loop.  (`xx` and `yy` are
assigned in every pass before they are read.) -/
structure IterState (α : Type) where
  i : Nat
  x : α
  y : α

/-- What one visit of the loop head does. -/
inductive IterOutcome (α : Type) where
  /-- the guard `i < maxIt` failed: the loop is left and `return maxIt` runs -/
  | exhausted : IterOutcome α
  /-- the body ran and executed `return i` -/
  | escaped : Nat → IterOutcome α
  /-- the body ran to its end; the post statement `i++` has been executed -/
  | next : IterState α → IterOutcome α

/-- One visit of the loop head of `iter`, as a step function. -/
def iterStep {α : Type} (A : Arith α) (cx cy : α) (s : IterState α) : IterOutcome α :=
  if s.i < maxIt then
    let xy := A.mul s.x s.y
    let xx := A.mul s.x s.x
    let yy := A.mul s.y s.y
    if A.gt (A.add xx yy) (A.lit 4) = true then .escaped s.i
    else .next ⟨s.i + 1, A.add (A.sub xx yy) cx, A.add (A.mul (A.lit 2) xy) cy⟩
  else .exhausted

/-- Runs `iterStep` from state `s` for at most `fuel` visits of the loop head.  The
result is `none` when the fuel runs out, and otherwise the returned value together with
the number of times the loop body was executed. -/
def iterRun {α : Type} (A : Arith α) (cx cy : α) : Nat → IterState α → Option (Nat × Nat)
  | 0, _ => none
  | fuel + 1, s =>
    match iterStep A cx cy s with
    | .exhausted => some (maxIt, 0)
    | .escaped r => some (r, 1)
    | .next s' => (iterRun A cx cy fuel s').map (fun rb => (rb.1, rb.2 + 1))

/-- The state in which `iter` enters its loop. -/
def iterInit {α : Type} (A : Arith α) : IterState α := ⟨0, A.lit 0, A.lit 0⟩

/-- The kernel as the specification words it: starting from `z = 0`, apply
`z ← z² + c` (`x' = x² − y² + cx`, `y' = 2xy + cy`), and after each update test
`x² + y² > 4`, returning the number `k` of updates completed before this one (so `0`
when the test succeeds on the first check).  `n` updates are left. -/
def specLoop {α : Type} (A : Arith α) (cx cy : α) : Nat → Nat → α → α → Nat
  | 0, _, _, _ => maxIt
  | n + 1, k, x, y =>
    let x' := A.add (A.sub (A.mul x x) (A.mul y y)) cx
    let y' := A.add (A.mul (A.lit 2) (A.mul x y)) cy
    if A.gt (A.add (A.mul x' x') (A.mul y' y')) (A.lit 4) = true then k
    else specLoop A cx cy n (k + 1) x' y'

/-- The specification's `iterate(real_c, imag_c)`: at most `maxIt` updates from
`z = 0`, and `maxIt` when none of them escapes. -/
def specIterate {α : Type} (A : Arith α) (cx cy : α) : Nat :=
  specLoop A cx cy maxIt 0 (A.lit 0) (A.lit 0)

/-! ## The renderer state (`Mandelbrot`, lines 22-41) -/

/-- The type `color.RGBA`: four 8-bit channels. -/
structure RGBA where
  R : Nat
  G : Nat
  B : Nat
  A : Nat
deriving DecidableEq, Repr

/-- The method `RGBA()` of Go's `color.RGBA` (named `rgba` here, the type has the name
`RGBA`): every channel `v` becomes the 16-bit value `v | v << 8`. -/
def RGBA.rgba (c : RGBA) : Nat × Nat × Nat × Nat :=
  (c.R ||| (c.R <<< 8), c.G ||| (c.G <<< 8), c.B ||| (c.B <<< 8), c.A ||| (c.A <<< 8))

/-- The conversion `uint8(v)` of an unsigned integer. -/
def uint8 (v : Nat) : Nat := v % 2 ^ 8

/-- The fields of `Mandelbrot` that the renderer computes with.  (`duration` and the
`ebiten` image `offscreen` are not modelled.) -/
structure Mandelbrot (α : Type) where
  offscreenPix : List Nat
  palette : List RGBA
  zoom : α

/-- The function `NewMandelbrot`.  The table `palette.Plan9` belongs to Go's standard
library and is the parameter `plan9`. -/
def NewMandelbrot {α : Type} (A : Arith α) (plan9 : List RGBA) : Mandelbrot α where
  offscreenPix := List.replicate (screenWidth * screenHeight * 4) 0
  palette := plan9.map (fun c =>
    match c.rgba with
    | (r, g, b, a) => ⟨uint8 r, uint8 g, uint8 b, uint8 a⟩)
  zoom := A.lit 2

/-! ## The field renderer (`updateOffscreen`, lines 59-87) -/

/-- The assignment `pix[p] = v` on a byte slice; `none` when `p` is out of range. -/
def store (pix : List Nat) (p v : Nat) : Option (List Nat) :=
  if p < pix.length then some (pix.set p v) else none

/-- The first argument of the call of `iter` at line 67:
`float64(i)*size/screenWidth - size/2 + centerX`. -/
def realC {α : Type} (A : Arith α) (centerX size : α) (i : Nat) : α :=
  A.add (A.sub (A.div (A.mul (A.lit i) size) (A.lit screenWidth)) (A.div size (A.lit 2)))
    centerX

/-- The second argument of the call of `iter` at line 67:
`(screenHeight-float64(j))*size/screenHeight - size/2 + centerY`. -/
def imagC {α : Type} (A : Arith α) (centerY size : α) (j : Nat) : α :=
  A.add
    (A.sub (A.div (A.mul (A.sub (A.lit screenHeight) (A.lit j)) size) (A.lit screenHeight))
      (A.div size (A.lit 2)))
    centerY

/-- The offset `p := 4 * (i + j*screenWidth)` of line 68. -/
def pixelOffset (j i : Nat) : Nat := 4 * (i + j * screenWidth)

/-- The body of the inner loop (lines 67-80) for row `j` and column `i`. -/
def pixelBody {α : Type} (A : Arith α) (palette : List RGBA) (centerX centerY size : α)
    (j i : Nat) (pix : List Nat) : Option (List Nat) :=
  let it := iter A (realC A centerX size i) (imagC A centerY size j)
  let p := pixelOffset j i
  if it < maxIt then do
    let rgba ← palette[it]?
    let pix ← store pix p rgba.R
    let pix ← store pix (p + 1) rgba.G
    let pix ← store pix (p + 2) rgba.B
    store pix (p + 3) rgba.A
  else do
    let pix ← store pix p 0
    let pix ← store pix (p + 1) 0
    let pix ← store pix (p + 2) 0
    store pix (p + 3) 0

/-- The columns that the inner loop `for i := 0; i < screenHeight; i++` visits. -/
def rowColumns : List Nat := List.range screenHeight

/-- The function that the goroutine of row `j` runs (lines 64-82). -/
def rowBody {α : Type} (A : Arith α) (palette : List RGBA) (centerX centerY size : α)
    (j : Nat) (pix : List Nat) : Option (List Nat) :=
  rowColumns.foldlM (fun pix i => pixelBody A palette centerX centerY size j i pix) pix

/-- Runs the row bodies one after another, in the order given by the list `order`. -/
def runRows {α : Type} (A : Arith α) (palette : List RGBA) (centerX centerY size : α)
    (order : List Nat) (pix : List Nat) : Option (List Nat) :=
  order.foldlM (fun pix j => rowBody A palette centerX centerY size j pix) pix

/-- The method `updateOffscreen`: one row body for each `j` of
`for j := 0; j < screenHeight; j++`, here in ascending order. -/
def updateOffscreen {α : Type} (A : Arith α) (m : Mandelbrot α) (centerX centerY size : α) :
    Option (Mandelbrot α) :=
  (runRows A m.palette centerX centerY size (List.range screenHeight) m.offscreenPix).map
    (fun pix => { m with offscreenPix := pix })

/-- The method `updateOffscreen` with the row bodies run in the order `order`. -/
def updateOffscreenIn {α : Type} (A : Arith α) (order : List Nat) (m : Mandelbrot α)
    (centerX centerY size : α) : Option (Mandelbrot α) :=
  (runRows A m.palette centerX centerY size order m.offscreenPix).map
    (fun pix => { m with offscreenPix := pix })

/-- The method `Update` (lines 89-93). -/
def Update {α : Type} (A : Arith α) (m : Mandelbrot α) : Option (Mandelbrot α) :=
  (updateOffscreen A m (A.lit (-0.70)) (A.lit 0.25) m.zoom).map
    (fun m' => { m' with zoom := A.mul m'.zoom (A.lit 0.995) })

/-- The state after `N` calls of `Update`, `none` when one of them panics. -/
def updateN {α : Type} (A : Arith α) : Nat → Mandelbrot α → Option (Mandelbrot α)
  | 0, m => some m
  | N + 1, m => (updateN A N m).bind (Update A)

/-! ## Auxiliary definitions for the proofs -/

/-- The colour that `pixelBody` writes for row `j` and column `i`; `none` when the
palette lookup is out of range. -/
def pixelColour {α : Type} (A : Arith α) (palette : List RGBA) (centerX centerY size : α)
    (j i : Nat) : Option RGBA :=
  let it := iter A (realC A centerX size i) (imagC A centerY size j)
  if it < maxIt then palette[it]? else some ⟨0, 0, 0, 0⟩

/-- The four stores of one pixel. -/
def store4 (pix : List Nat) (p : Nat) (c : RGBA) : Option (List Nat) :=
  (((store pix p c.R).bind (fun pix => store pix (p + 1) c.G)).bind
    (fun pix => store pix (p + 2) c.B)).bind (fun pix => store pix (p + 3) c.A)

/-- The indices that the stores of lines 71-74 and 76-79 assign to. -/
def writeIndices (j i : Nat) : List Nat :=
  [pixelOffset j i, pixelOffset j i + 1, pixelOffset j i + 2, pixelOffset j i + 3]

/-- Channel `ch` (0 to 3 for R, G, B, A) of a colour. -/
def RGBA.chan (c : RGBA) (ch : Nat) : Nat :=
  match ch with
  | 0 => c.R
  | 1 => c.G
  | 2 => c.B
  | _ => c.A

/-- The byte that a completed frame holds at index `q`: channel `q % 4` of the colour
of the pixel in row `q / 4 / screenWidth` and column `q / 4 % screenWidth`. -/
def frameByte {α : Type} (A : Arith α) (palette : List RGBA) (centerX centerY size : α)
    (q : Nat) : Nat :=
  match pixelColour A palette centerX centerY size (q / 4 / screenWidth) (q / 4 % screenWidth) with
  | some c => c.chan (q % 4)
  | none => 0

/-- A summary of an operation `f` on the pixel buffer: on a buffer whose length satisfies
`ok`, `f` succeeds, keeps the length, sets the byte at every index `q` with `T q` to
`V q` and leaves the other bytes as they were; on any other buffer `f` panics. -/
def Paints (f : List Nat → Option (List Nat)) (ok : Nat → Prop) (T : Nat → Prop)
    (V : Nat → Nat) : Prop :=
  ∀ pix : List Nat,
    (ok pix.length → ∃ pix', f pix = some pix' ∧ pix'.length = pix.length ∧
      ∀ q, (T q → pix'[q]? = some (V q)) ∧ (¬ T q → pix'[q]? = pix[q]?)) ∧
    (¬ ok pix.length → f pix = none)

/-- The lengths of the pixel buffer on which the body of pixel `(j, i)` does not panic. -/
def pixelOk {α : Type} (A : Arith α) (palette : List RGBA) (centerX centerY size : α)
    (j i : Nat) (len : Nat) : Prop :=
  (pixelColour A palette centerX centerY size j i).isSome = true ∧ pixelOffset j i + 3 < len

/-- The indices that belong to pixel `(j, i)`. -/
def pixelOwns (j i : Nat) (q : Nat) : Prop := q / 4 = i + j * screenWidth

/-! ## The reference characterisation of the kernel -/

/-- One update `z ← z² + c` of the orbit: `x' = x² − y² + cx`, `y' = 2xy + cy`. -/
def orbitStep {α : Type} (A : Arith α) (cx cy : α) (z : α × α) : α × α :=
  (A.add (A.sub (A.mul z.1 z.1) (A.mul z.2 z.2)) cx, A.add (A.mul (A.lit 2) (A.mul z.1 z.2)) cy)

/-- The orbit of `c = (cx, cy)`: `z_0 = 0` and `z_(n+1) = z_n² + c`. -/
def orbit {α : Type} (A : Arith α) (cx cy : α) : Nat → α × α
  | 0 => (A.lit 0, A.lit 0)
  | n + 1 => orbitStep A cx cy (orbit A cx cy n)

/-- The test `|z|² > 4`, that is `x*x + y*y > 4`. -/
def outside {α : Type} (A : Arith α) (z : α × α) : Bool :=
  A.gt (A.add (A.mul z.1 z.1) (A.mul z.2 z.2)) (A.lit 4)

/-- The least index `i` in `[0, maxIt)` with `|z_i|² > 4`, and `maxIt` when there is
none. -/
def leastEscape {α : Type} (A : Arith α) (cx cy : α) : Nat :=
  ((List.range maxIt).find? (fun i => outside A (orbit A cx cy i))).getD maxIt

/-! ## Sample inputs -/

/-- A palette of `maxIt` equal entries. -/
def samplePalette : List RGBA := List.replicate 100 ⟨10, 20, 30, 255⟩

/-- A renderer state with an all-zero buffer of the size that `NewMandelbrot` allocates. -/
def sampleState : Mandelbrot ℚ := ⟨List.replicate (500 * 500 * 4) 0, samplePalette, 2⟩

/-- A stand-in for `palette.Plan9` with the length of that table, 256. -/
def samplePlan9 : List RGBA := List.replicate 256 ⟨0, 0, 0, 255⟩

/-- The sample state on binary64. -/
def sampleState64 : Mandelbrot F64 :=
  ⟨List.replicate (500 * 500 * 4) 0, samplePalette, float64.lit 2⟩

/-! ## Lemmas on the kernel -/

theorem iterLoop_escape {α : Type} (A : Arith α) (cx cy : α) (n i : Nat) (x y : α)
    (h : A.gt (A.add (A.mul x x) (A.mul y y)) (A.lit 4) = true) :
    iterLoop A cx cy (n + 1) i x y = i := by
  simp [iterLoop, h]

theorem iterLoop_continue {α : Type} (A : Arith α) (cx cy : α) (n i : Nat) (x y : α)
    (h : A.gt (A.add (A.mul x x) (A.mul y y)) (A.lit 4) = false) :
    iterLoop A cx cy (n + 1) i x y =
      iterLoop A cx cy n (i + 1) (A.add (A.sub (A.mul x x) (A.mul y y)) cx)
        (A.add (A.mul (A.lit 2) (A.mul x y)) cy) := by
  simp [iterLoop, h]

theorem iterLoop_le {α : Type} (A : Arith α) (cx cy : α) :
    ∀ (n i : Nat) (x y : α), i + n ≤ maxIt → iterLoop A cx cy n i x y ≤ maxIt := by
  intro n
  induction n with
  | zero => intro i x y _; simp [iterLoop]
  | succ n ih =>
    intro i x y h
    cases hg : A.gt (A.add (A.mul x x) (A.mul y y)) (A.lit 4) with
    | true => rw [iterLoop_escape A cx cy n i x y hg]; omega
    | false => rw [iterLoop_continue A cx cy n i x y hg]; exact ih _ _ _ (by omega)

theorem iter_le_maxIt {α : Type} (A : Arith α) (cx cy : α) : iter A cx cy ≤ maxIt :=
  iterLoop_le A cx cy maxIt 0 _ _ (by omega)

/-- The step semantics agrees with `iterLoop`, and counts at most `n` body executions when
`n` passes are left. -/
theorem iterRun_iterLoop {α : Type} (A : Arith α) (cx cy : α) :
    ∀ (n i : Nat) (x y : α), i + n = maxIt →
      ∃ b, b ≤ n ∧ iterRun A cx cy (n + 1) ⟨i, x, y⟩ = some (iterLoop A cx cy n i x y, b) := by
  intro n
  induction n with
  | zero =>
    intro i x y h
    refine ⟨0, le_refl _, ?_⟩
    have hi : ¬ i < maxIt := by omega
    simp [iterRun, iterStep, iterLoop, hi]
  | succ n ih =>
    intro i x y h
    have hi : i < maxIt := by omega
    cases hg : A.gt (A.add (A.mul x x) (A.mul y y)) (A.lit 4) with
    | true =>
      refine ⟨1, by omega, ?_⟩
      rw [iterLoop_escape A cx cy n i x y hg]
      simp [iterRun, iterStep, hi, hg]
    | false =>
      obtain ⟨b, hb, hrun⟩ := ih (i + 1) (A.add (A.sub (A.mul x x) (A.mul y y)) cx)
        (A.add (A.mul (A.lit 2) (A.mul x y)) cy) (by omega)
      refine ⟨b + 1, by omega, ?_⟩
      rw [iterLoop_continue A cx cy n i x y hg]
      rw [iterRun]
      simp only [iterStep, hi, hg, if_true]
      simp [hrun]

/-- More fuel does not change a result. -/
theorem iterRun_mono {α : Type} (A : Arith α) (cx cy : α) :
    ∀ (fuel k : Nat) (s : IterState α) (r : Nat × Nat),
      iterRun A cx cy fuel s = some r → iterRun A cx cy (fuel + k) s = some r := by
  intro fuel
  induction fuel with
  | zero => intro k s r h; simp [iterRun] at h
  | succ fuel ih =>
    intro k s r h
    have e : fuel + 1 + k = (fuel + k) + 1 := by omega
    rw [e]
    rw [iterRun] at h ⊢
    cases hs : iterStep A cx cy s with
    | exhausted => rw [hs] at h; simpa using h
    | escaped v => rw [hs] at h; simpa using h
    | next s' =>
      rw [hs] at h
      simp only [Option.map_eq_some'] at h ⊢
      obtain ⟨a, ha, hr⟩ := h
      exact ⟨a, ih k s' a ha, hr⟩

/-- The loop of `iter` against the loop of the specification: the code tests a point
before it updates it, the specification after. -/
theorem iterLoop_specLoop {α : Type} (A : Arith α) (cx cy : α) :
    ∀ (n k : Nat) (x y : α), k + 1 + n = maxIt →
      iterLoop A cx cy n (k + 1) (A.add (A.sub (A.mul x x) (A.mul y y)) cx)
          (A.add (A.mul (A.lit 2) (A.mul x y)) cy) =
        min maxIt (specLoop A cx cy (n + 1) k x y + 1) := by
  intro n
  induction n with
  | zero =>
    intro k x y h
    simp only [iterLoop, specLoop]
    split <;> omega
  | succ n ih =>
    intro k x y h
    cases hg : A.gt (A.add
        (A.mul (A.add (A.sub (A.mul x x) (A.mul y y)) cx)
          (A.add (A.sub (A.mul x x) (A.mul y y)) cx))
        (A.mul (A.add (A.mul (A.lit 2) (A.mul x y)) cy)
          (A.add (A.mul (A.lit 2) (A.mul x y)) cy))) (A.lit 4) with
    | true =>
      rw [iterLoop_escape A cx cy n (k + 1) _ _ hg]
      rw [specLoop]
      simp only [hg, if_true]
      omega
    | false =>
      rw [iterLoop_continue A cx cy n (k + 1) _ _ hg]
      rw [ih (k + 1) _ _ (by omega)]
      conv_rhs => rw [specLoop]
      simp only [hg]
      simp

theorem iterLoop_origin : ∀ (n i : Nat), iterLoop exact 0 0 n i 0 0 = maxIt := by
  intro n
  induction n with
  | zero => intro i; simp [iterLoop]
  | succ n ih =>
    intro i
    rw [iterLoop_continue exact 0 0 n i 0 0 (by simp [exact])]
    simpa [exact] using ih (i + 1)

theorem iterRun_origin : ∀ (n i : Nat), i + n = maxIt →
    iterRun exact 0 0 (n + 1) ⟨i, 0, 0⟩ = some (maxIt, n) := by
  intro n
  induction n with
  | zero =>
    intro i h
    have hi : ¬ i < maxIt := by omega
    simp [iterRun, iterStep, hi]
  | succ n ih =>
    intro i h
    have hi : i < maxIt := by omega
    rw [iterRun]
    have hs : iterStep exact 0 0 ⟨i, 0, 0⟩ = .next ⟨i + 1, 0, 0⟩ := by
      simp [iterStep, hi, exact]
    rw [hs]
    simp [ih (i + 1) (by omega)]

theorem iterLoop_minus_one : ∀ (n i : Nat),
    iterLoop exact (-1) 0 n i 0 0 = maxIt ∧ iterLoop exact (-1) 0 n i (-1) 0 = maxIt := by
  intro n
  induction n with
  | zero => intro i; simp [iterLoop]
  | succ n ih =>
    intro i
    constructor
    · rw [iterLoop_continue exact (-1) 0 n i 0 0 (by simp [exact])]
      simpa [exact] using (ih (i + 1)).2
    · rw [iterLoop_continue exact (-1) 0 n i (-1) 0 (by simp [exact])]
      simpa [exact] using (ih (i + 1)).1

/-- A point with `cx² + cy² > 4` is returned at the second test, with count 1. -/
theorem iter_exact_outside (cx cy : ℚ) (h : cx * cx + cy * cy > 4) : iter exact cx cy = 1 := by
  have e : iter exact cx cy = iterLoop exact cx cy (98 + 1 + 1) 0 0 0 := rfl
  rw [e, iterLoop_continue exact cx cy _ 0 0 0 (by simp [exact])]
  rw [iterLoop_escape]
  simpa [exact] using h

/-! ## Lemmas on the renderer -/

theorem store4_eq (pix : List Nat) (p : Nat) (c : RGBA) :
    store4 pix p c =
      if p + 3 < pix.length then
        some ((((pix.set p c.R).set (p + 1) c.G).set (p + 2) c.B).set (p + 3) c.A)
      else none := by
  unfold store4 store
  by_cases h : p + 3 < pix.length
  · have h0 : p < pix.length := by omega
    have h1 : p + 1 < pix.length := by omega
    have h2 : p + 2 < pix.length := by omega
    simp [h, h0, h1, h2]
  · simp only [h, if_false]
    by_cases h0 : p < pix.length
    · by_cases h1 : p + 1 < pix.length
      · by_cases h2 : p + 2 < pix.length
        · simp [h, h0, h1, h2]
        · simp [h0, h1, h2]
      · simp [h0, h1]
    · simp [h0]

theorem pixelBody_eq {α : Type} (A : Arith α) (palette : List RGBA) (centerX centerY size : α)
    (j i : Nat) (pix : List Nat) :
    pixelBody A palette centerX centerY size j i pix =
      (pixelColour A palette centerX centerY size j i).bind (store4 pix (pixelOffset j i)) := by
  unfold pixelBody pixelColour store4
  by_cases h : iter A (realC A centerX size i) (imagC A centerY size j) < maxIt
  · simp only [h, if_true]
    cases palette[iter A (realC A centerX size i) (imagC A centerY size j)]? with
    | none => rfl
    | some c =>
      simp only [Option.bind_eq_bind, Option.some_bind, Option.bind_assoc]
  · simp only [h, if_false]
    simp only [Option.bind_eq_bind, Option.some_bind, Option.bind_assoc]

theorem set4_getElem? (pix : List Nat) (p a b c d : Nat) (h : p + 3 < pix.length) (q : Nat) :
    ((((pix.set p a).set (p + 1) b).set (p + 2) c).set (p + 3) d)[q]? =
      if q = p then some a else if q = p + 1 then some b else if q = p + 2 then some c
      else if q = p + 3 then some d else pix[q]? := by
  simp only [List.getElem?_set, List.length_set]
  split_ifs <;> first | rfl | omega

theorem paints_foldlM {κ : Type} (f : κ → List Nat → Option (List Nat)) (ok : κ → Nat → Prop)
    (T : κ → Nat → Prop) (V : Nat → Nat) :
    ∀ l : List κ, (∀ k ∈ l, Paints (f k) (ok k) (T k) V) →
      Paints (fun pix => l.foldlM (fun pix k => f k pix) pix) (fun len => ∀ k ∈ l, ok k len)
        (fun q => ∃ k ∈ l, T k q) V := by
  intro l
  induction l with
  | nil =>
    intro _ pix
    constructor
    · intro _
      exact ⟨pix, rfl, rfl, fun q => ⟨fun h => by simp at h, fun _ => rfl⟩⟩
    · intro h
      exact absurd (fun k hk => by simp at hk) h
  | cons k l ih =>
    intro hP pix
    have hk := hP k (List.mem_cons_self k l)
    have hl := ih (fun k' hk' => hP k' (List.mem_cons_of_mem k hk'))
    simp only [List.foldlM_cons]
    constructor
    · intro hok
      obtain ⟨p1, hf1, hlen1, hq1⟩ := (hk pix).1 (hok k (List.mem_cons_self k l))
      have hok1 : ∀ k' ∈ l, ok k' p1.length := by
        intro k' hk'
        rw [hlen1]
        exact hok k' (List.mem_cons_of_mem k hk')
      obtain ⟨p2, hf2, hlen2, hq2⟩ := (hl p1).1 hok1
      refine ⟨p2, ?_, by rw [hlen2, hlen1], ?_⟩
      · rw [hf1]
        exact hf2
      · intro q
        constructor
        · rintro ⟨k', hk', hT⟩
          by_cases hin : ∃ k'' ∈ l, T k'' q
          · exact (hq2 q).1 hin
          · rw [(hq2 q).2 hin]
            rcases List.mem_cons.1 hk' with rfl | hk''
            · exact (hq1 q).1 hT
            · exact absurd ⟨k', hk'', hT⟩ hin
        · intro hT
          have h2 : ¬ ∃ k'' ∈ l, T k'' q := fun ⟨k'', hk'', h⟩ =>
            hT ⟨k'', List.mem_cons_of_mem k hk'', h⟩
          have h1 : ¬ T k q := fun h => hT ⟨k, List.mem_cons_self k l, h⟩
          rw [(hq2 q).2 h2, (hq1 q).2 h1]
    · intro hok
      by_cases hk0 : ok k pix.length
      · obtain ⟨p1, hf1, hlen1, _⟩ := (hk pix).1 hk0
        rw [hf1]
        refine (hl p1).2 ?_
        intro hall
        apply hok
        intro k' hk'
        rcases List.mem_cons.1 hk' with rfl | hk''
        · exact hk0
        · rw [← hlen1]
          exact hall k' hk''
      · rw [(hk pix).2 hk0]
        rfl

/-- Two operations with the same summary are the same operation. -/
theorem paints_unique (f g : List Nat → Option (List Nat)) (ok ok' : Nat → Prop)
    (T T' : Nat → Prop) (V : Nat → Nat) (hf : Paints f ok T V) (hg : Paints g ok' T' V)
    (hok : ∀ n, ok n ↔ ok' n) (hT : ∀ q, T q ↔ T' q) (pix : List Nat) : f pix = g pix := by
  by_cases h : ok pix.length
  · obtain ⟨p1, hf1, _, hq1⟩ := (hf pix).1 h
    obtain ⟨p2, hg2, _, hq2⟩ := (hg pix).1 ((hok _).1 h)
    rw [hf1, hg2]
    congr 1
    apply List.ext_getElem?
    intro q
    by_cases hq : T q
    · rw [(hq1 q).1 hq, (hq2 q).1 ((hT q).1 hq)]
    · rw [(hq1 q).2 hq, (hq2 q).2 (fun h' => hq ((hT q).2 h'))]
  · rw [(hf pix).2 h, (hg pix).2 (fun h' => h ((hok _).2 h'))]

theorem paints_pixel {α : Type} (A : Arith α) (palette : List RGBA) (centerX centerY size : α)
    (j i : Nat) (hi : i < screenWidth) :
    Paints (pixelBody A palette centerX centerY size j i)
      (pixelOk A palette centerX centerY size j i) (pixelOwns j i)
      (frameByte A palette centerX centerY size) := by
  intro pix
  rw [pixelBody_eq]
  unfold pixelOk
  cases hc : pixelColour A palette centerX centerY size j i with
  | none =>
    constructor
    · intro h
      simp at h
    · intro _
      rfl
  | some c =>
    simp only [Option.some_bind, store4_eq, Option.isSome_some, true_and]
    constructor
    · intro hlen
      rw [if_pos hlen]
      refine ⟨_, rfl, by simp, ?_⟩
      intro q
      rw [set4_getElem? pix _ _ _ _ _ hlen q]
      unfold pixelOwns pixelOffset frameByte
      unfold screenWidth at hi ⊢
      constructor
      · intro hT
        have hj : q / 4 / 500 = j := by omega
        have hi' : q / 4 % 500 = i := by omega
        rw [hj, hi', hc]
        have hr : q % 4 < 4 := Nat.mod_lt _ (by decide)
        have hq : q = 4 * (i + j * 500) + q % 4 := by omega
        generalize q % 4 = r at hr hq
        subst hq
        interval_cases r <;> simp [RGBA.chan]
      · intro hT
        have h0 : q ≠ 4 * (i + j * 500) := by omega
        have h1 : q ≠ 4 * (i + j * 500) + 1 := by omega
        have h2 : q ≠ 4 * (i + j * 500) + 2 := by omega
        have h3 : q ≠ 4 * (i + j * 500) + 3 := by omega
        simp [h0, h1, h2, h3]
    · intro hlen
      rw [if_neg hlen]

theorem paints_row {α : Type} (A : Arith α) (palette : List RGBA) (centerX centerY size : α)
    (j : Nat) :
    Paints (rowBody A palette centerX centerY size j)
      (fun len => ∀ i ∈ rowColumns, pixelOk A palette centerX centerY size j i len)
      (fun q => ∃ i ∈ rowColumns, pixelOwns j i q)
      (frameByte A palette centerX centerY size) := by
  refine paints_foldlM (fun i pix => pixelBody A palette centerX centerY size j i pix)
    (fun i => pixelOk A palette centerX centerY size j i) (fun i => pixelOwns j i) _
    rowColumns ?_
  intro i hi
  refine paints_pixel A palette centerX centerY size j i ?_
  simpa [rowColumns, screenHeight, screenWidth] using hi

theorem paints_rows {α : Type} (A : Arith α) (palette : List RGBA) (centerX centerY size : α)
    (order : List Nat) :
    Paints (runRows A palette centerX centerY size order)
      (fun len => ∀ j ∈ order, ∀ i ∈ rowColumns, pixelOk A palette centerX centerY size j i len)
      (fun q => ∃ j ∈ order, ∃ i ∈ rowColumns, pixelOwns j i q)
      (frameByte A palette centerX centerY size) :=
  paints_foldlM (fun j pix => rowBody A palette centerX centerY size j pix)
    (fun j len => ∀ i ∈ rowColumns, pixelOk A palette centerX centerY size j i len)
    (fun j q => ∃ i ∈ rowColumns, pixelOwns j i q) _ order
    (fun j _ => paints_row A palette centerX centerY size j)

/-- The row bodies can be run in any order. -/
theorem runRows_perm {α : Type} (A : Arith α) (palette : List RGBA) (centerX centerY size : α)
    (order order' : List Nat) (h : order.Perm order') (pix : List Nat) :
    runRows A palette centerX centerY size order pix =
      runRows A palette centerX centerY size order' pix :=
  paints_unique _ _ _ _ _ _ _ (paints_rows A palette centerX centerY size order)
    (paints_rows A palette centerX centerY size order')
    (fun _ => ⟨fun H j hj => H j (h.mem_iff.2 hj), fun H j hj => H j (h.mem_iff.1 hj)⟩)
    (fun _ => ⟨fun ⟨j, hj, H⟩ => ⟨j, h.mem_iff.1 hj, H⟩, fun ⟨j, hj, H⟩ => ⟨j, h.mem_iff.2 hj, H⟩⟩)
    pix

theorem pixelColour_isSome {α : Type} (A : Arith α) (palette : List RGBA)
    (centerX centerY size : α) (j i : Nat) (hpal : maxIt ≤ palette.length) :
    (pixelColour A palette centerX centerY size j i).isSome = true := by
  unfold pixelColour
  by_cases h : iter A (realC A centerX size i) (imagC A centerY size j) < maxIt
  · simp only [h, if_true]
    have hlt : iter A (realC A centerX size i) (imagC A centerY size j) < palette.length := by
      omega
    simp [List.getElem?_eq_getElem hlt]
  · simp [h]

/-- With a palette of at least `maxIt` entries and a buffer of at least
`4 * screenWidth * screenHeight` bytes no row body panics. -/
theorem rows_ok {α : Type} (A : Arith α) (palette : List RGBA) (centerX centerY size : α)
    (order : List Nat) (horder : ∀ j ∈ order, j < screenHeight) (len : Nat)
    (hpal : maxIt ≤ palette.length) (hlen : screenWidth * screenHeight * 4 ≤ len) :
    ∀ j ∈ order, ∀ i ∈ rowColumns, pixelOk A palette centerX centerY size j i len := by
  intro j hj i hi
  refine ⟨pixelColour_isSome A palette centerX centerY size j i hpal, ?_⟩
  have hj' := horder j hj
  have hi' : i < screenHeight := by simpa [rowColumns] using hi
  unfold pixelOffset
  unfold screenWidth screenHeight at *
  omega

/-- The indices that the rows `0 .. screenHeight - 1` own are those of the whole frame. -/
theorem owned_iff (q : Nat) :
    (∃ j ∈ List.range screenHeight, ∃ i ∈ rowColumns, pixelOwns j i q) ↔
      q < screenWidth * screenHeight * 4 := by
  unfold pixelOwns rowColumns
  simp only [List.mem_range]
  unfold screenWidth screenHeight
  constructor
  · rintro ⟨j, hj, i, hi, h⟩
    omega
  · intro h
    exact ⟨q / 4 / 500, by omega, q / 4 % 500, by omega, by omega⟩

/-- The frame: with a palette of at least `maxIt` entries and a buffer of
`4 * screenWidth * screenHeight` bytes the rows, run in ascending order, succeed and
leave `frameByte q` at every index `q`. -/
theorem runRows_frame {α : Type} (A : Arith α) (palette : List RGBA) (centerX centerY size : α)
    (pix : List Nat) (hpal : maxIt ≤ palette.length)
    (hlen : pix.length = screenWidth * screenHeight * 4) :
    ∃ pix', runRows A palette centerX centerY size (List.range screenHeight) pix = some pix' ∧
      pix'.length = screenWidth * screenHeight * 4 ∧
      ∀ q, q < screenWidth * screenHeight * 4 →
        pix'[q]? = some (frameByte A palette centerX centerY size q) := by
  obtain ⟨pix', hrun, hl, hq⟩ :=
    (paints_rows A palette centerX centerY size (List.range screenHeight) pix).1
      (rows_ok A palette centerX centerY size _ (fun j hj => List.mem_range.1 hj) _ hpal
        (le_of_eq hlen.symm))
  exact ⟨pix', hrun, by rw [hl, hlen], fun q hq' => (hq q).1 ((owned_iff q).2 hq')⟩

theorem frameByte_pixel {α : Type} (A : Arith α) (palette : List RGBA) (centerX centerY size : α)
    (px py ch : Nat) (hpx : px < screenWidth) (hch : ch < 4) (c : RGBA)
    (hc : pixelColour A palette centerX centerY size py px = some c) :
    frameByte A palette centerX centerY size (4 * (px + py * screenWidth) + ch) = c.chan ch := by
  unfold frameByte
  unfold screenWidth at *
  have e1 : (4 * (px + py * 500) + ch) / 4 / 500 = py := by omega
  have e2 : (4 * (px + py * 500) + ch) / 4 % 500 = px := by omega
  have e3 : (4 * (px + py * 500) + ch) % 4 = ch := by omega
  rw [e1, e2, e3, hc]

/-- An operation that paints every index of the buffer forgets the buffer it started
from. -/
theorem paints_overwrite (f : List Nat → Option (List Nat)) (ok : Nat → Prop) (T : Nat → Prop)
    (V : Nat → Nat) (hf : Paints f ok T V) (pix1 pix2 : List Nat)
    (hlen : pix1.length = pix2.length) (hall : ∀ q, q < pix1.length → T q) :
    f pix1 = f pix2 := by
  by_cases h : ok pix1.length
  · obtain ⟨p1, hf1, hl1, hq1⟩ := (hf pix1).1 h
    obtain ⟨p2, hf2, hl2, hq2⟩ := (hf pix2).1 (hlen ▸ h)
    rw [hf1, hf2]
    congr 1
    apply List.ext_getElem?
    intro q
    by_cases hq : q < pix1.length
    · rw [(hq1 q).1 (hall q hq), (hq2 q).1 (hall q hq)]
    · rw [List.getElem?_eq_none (by omega), List.getElem?_eq_none (by omega)]
  · rw [(hf pix1).2 h, (hf pix2).2 (hlen ▸ h)]

theorem updateOffscreen_some {α : Type} (A : Arith α) (m : Mandelbrot α)
    (centerX centerY size : α) (hpal : maxIt ≤ m.palette.length)
    (hlen : m.offscreenPix.length = screenWidth * screenHeight * 4) :
    ∃ pix', updateOffscreen A m centerX centerY size = some { m with offscreenPix := pix' } ∧
      pix'.length = screenWidth * screenHeight * 4 ∧
      ∀ q, q < screenWidth * screenHeight * 4 →
        pix'[q]? = some (frameByte A m.palette centerX centerY size q) := by
  obtain ⟨pix', hrun, hl, hq⟩ :=
    runRows_frame A m.palette centerX centerY size m.offscreenPix hpal hlen
  exact ⟨pix', by simp [updateOffscreen, hrun], hl, hq⟩

theorem updateOffscreen_frame {α : Type} (A : Arith α) (m m' : Mandelbrot α)
    (centerX centerY size : α) (h : updateOffscreen A m centerX centerY size = some m') :
    m'.zoom = m.zoom ∧ m'.palette = m.palette ∧ m'.offscreenPix.length = m.offscreenPix.length := by
  unfold updateOffscreen at h
  simp only [Option.map_eq_some'] at h
  obtain ⟨pix', hrun, rfl⟩ := h
  refine ⟨rfl, rfl, ?_⟩
  have hP := paints_rows A m.palette centerX centerY size (List.range screenHeight) m.offscreenPix
  by_cases hok : ∀ j ∈ List.range screenHeight, ∀ i ∈ rowColumns,
      pixelOk A m.palette centerX centerY size j i m.offscreenPix.length
  · obtain ⟨p1, h1, hl, _⟩ := hP.1 hok
    rw [hrun] at h1
    cases h1
    exact hl
  · rw [hP.2 hok] at hrun
    cases hrun

theorem NewMandelbrot_palette_length {α : Type} (A : Arith α) (plan9 : List RGBA) :
    (NewMandelbrot A plan9).palette.length = plan9.length := by
  simp [NewMandelbrot]

theorem NewMandelbrot_pix_length {α : Type} (A : Arith α) (plan9 : List RGBA) :
    (NewMandelbrot A plan9).offscreenPix.length = screenWidth * screenHeight * 4 := by
  simp [NewMandelbrot]

/-- The state after `N` calls of `Update` from the initial state, in exact arithmetic. -/
theorem updateN_exact (plan9 : List RGBA) (h : maxIt ≤ plan9.length) :
    ∀ N : Nat, ∃ m, updateN exact N (NewMandelbrot exact plan9) = some m ∧
      m.zoom = 2 * (0.995 : ℚ) ^ N ∧ m.palette = (NewMandelbrot exact plan9).palette ∧
      m.offscreenPix.length = screenWidth * screenHeight * 4 := by
  intro N
  induction N with
  | zero =>
    exact ⟨_, rfl, by simp [NewMandelbrot, exact], rfl, NewMandelbrot_pix_length _ _⟩
  | succ N ih =>
    obtain ⟨m, hm, hz, hp, hl⟩ := ih
    have hpal : maxIt ≤ m.palette.length := by
      rw [hp, NewMandelbrot_palette_length]
      exact h
    obtain ⟨pix', hu, hl', _⟩ :=
      updateOffscreen_some exact m (exact.lit (-0.70)) (exact.lit 0.25) m.zoom hpal hl
    refine ⟨{ m with offscreenPix := pix', zoom := m.zoom * 0.995 }, ?_, ?_, hp, hl'⟩
    · rw [updateN, hm, Option.some_bind, Update, hu]
      rfl
    · show m.zoom * 0.995 = 2 * (0.995 : ℚ) ^ (N + 1)
      rw [hz, pow_succ]
      ring

theorem runRows_some_frame {α : Type} (A : Arith α) (palette : List RGBA)
    (centerX centerY size : α) (pix pix' : List Nat)
    (hlen : pix.length = screenWidth * screenHeight * 4)
    (h : runRows A palette centerX centerY size (List.range screenHeight) pix = some pix') :
    pix'.length = screenWidth * screenHeight * 4 ∧
      ∀ q, q < screenWidth * screenHeight * 4 →
        pix'[q]? = some (frameByte A palette centerX centerY size q) := by
  have hP := paints_rows A palette centerX centerY size (List.range screenHeight) pix
  by_cases hok : ∀ j ∈ List.range screenHeight, ∀ i ∈ rowColumns,
      pixelOk A palette centerX centerY size j i pix.length
  · obtain ⟨p1, h1, hl, hq⟩ := hP.1 hok
    rw [h] at h1
    cases h1
    exact ⟨by rw [hl, hlen], fun q hq' => (hq q).1 ((owned_iff q).2 hq')⟩
  · rw [hP.2 hok] at h
    cases h

theorem mem_writeIndices (j i q : Nat) : q ∈ writeIndices j i ↔ pixelOwns j i q := by
  unfold writeIndices pixelOwns pixelOffset
  simp only [List.mem_cons, List.mem_singleton, List.not_mem_nil, or_false]
  omega

theorem pixelBody_writes {α : Type} (A : Arith α) (palette : List RGBA)
    (centerX centerY size : α) (j i : Nat) (hi : i < screenWidth) (pix pix' : List Nat)
    (h : pixelBody A palette centerX centerY size j i pix = some pix') (q : Nat)
    (hq : q ∉ writeIndices j i) : pix'[q]? = pix[q]? := by
  have hP := paints_pixel A palette centerX centerY size j i hi pix
  by_cases hok : pixelOk A palette centerX centerY size j i pix.length
  · obtain ⟨p1, h1, _, hq1⟩ := hP.1 hok
    rw [h] at h1
    cases h1
    exact (hq1 q).2 (fun hT => hq ((mem_writeIndices j i q).2 hT))
  · rw [hP.2 hok] at h
    cases h

theorem rowBody_writes {α : Type} (A : Arith α) (palette : List RGBA)
    (centerX centerY size : α) (j : Nat) (pix pix' : List Nat)
    (h : rowBody A palette centerX centerY size j pix = some pix') (q : Nat)
    (hq : q < j * screenWidth * 4 ∨ (j + 1) * screenWidth * 4 ≤ q) :
    pix'.length = pix.length ∧ pix'[q]? = pix[q]? := by
  have hP := paints_row A palette centerX centerY size j pix
  by_cases hok : ∀ i ∈ rowColumns, pixelOk A palette centerX centerY size j i pix.length
  · obtain ⟨p1, h1, hl, hq1⟩ := hP.1 hok
    rw [h] at h1
    cases h1
    refine ⟨hl, (hq1 q).2 ?_⟩
    rintro ⟨i, hi, hT⟩
    have hi' : i < screenHeight := by simpa [rowColumns] using hi
    unfold pixelOwns at hT
    unfold screenWidth screenHeight at *
    omega
  · rw [hP.2 hok] at h
    cases h

/-! ## Lemmas on the reference characterisation, the lower bound and the symmetry -/

theorem iterLoop_eq_find {α : Type} (A : Arith α) (cx cy : α) :
    ∀ (n i : Nat),
      iterLoop A cx cy n i (orbit A cx cy i).1 (orbit A cx cy i).2 =
        ((List.range' i n).find? (fun k => outside A (orbit A cx cy k))).getD maxIt := by
  intro n
  induction n with
  | zero => intro i; simp [iterLoop]
  | succ n ih =>
    intro i
    rw [List.range'_succ, List.find?_cons]
    cases hg : outside A (orbit A cx cy i) with
    | true =>
      rw [iterLoop_escape A cx cy n i _ _ hg]
      rfl
    | false =>
      rw [iterLoop_continue A cx cy n i _ _ hg]
      exact ih (i + 1)

theorem iterLoop_least {α : Type} (A : Arith α) (cx cy : α) :
    ∀ (n i0 i : Nat), i0 ≤ i → i < i0 + n → outside A (orbit A cx cy i) = true →
      (∀ k, i0 ≤ k → k < i → outside A (orbit A cx cy k) = false) →
      iterLoop A cx cy n i0 (orbit A cx cy i0).1 (orbit A cx cy i0).2 = i := by
  intro n
  induction n with
  | zero => intro i0 i h1 h2; omega
  | succ n ih =>
    intro i0 i h1 h2 hi hk
    by_cases e : i = i0
    · subst e
      exact iterLoop_escape A cx cy n i _ _ hi
    · rw [iterLoop_continue A cx cy n i0 _ _ (hk i0 (le_refl _) (by omega))]
      exact ih (i0 + 1) i (by omega) (by omega) hi (fun k hk1 hk2 => hk k (by omega) hk2)

theorem iterLoop_none {α : Type} (A : Arith α) (cx cy : α) :
    ∀ (n i0 : Nat), (∀ k, i0 ≤ k → k < i0 + n → outside A (orbit A cx cy k) = false) →
      iterLoop A cx cy n i0 (orbit A cx cy i0).1 (orbit A cx cy i0).2 = maxIt := by
  intro n
  induction n with
  | zero => intro i0 _; simp [iterLoop]
  | succ n ih =>
    intro i0 hk
    rw [iterLoop_continue A cx cy n i0 _ _ (hk i0 (le_refl _) (by omega))]
    exact ih (i0 + 1) (fun k hk1 hk2 => hk k (by omega) (by omega))

theorem iterLoop_ge {α : Type} (A : Arith α) (cx cy : α) :
    ∀ (n i : Nat) (x y : α), i + n ≤ maxIt → i ≤ iterLoop A cx cy n i x y := by
  intro n
  induction n with
  | zero => intro i x y h; simp only [iterLoop]; omega
  | succ n ih =>
    intro i x y h
    cases hg : A.gt (A.add (A.mul x x) (A.mul y y)) (A.lit 4) with
    | true => rw [iterLoop_escape A cx cy n i x y hg]
    | false =>
      rw [iterLoop_continue A cx cy n i x y hg]
      exact le_trans (Nat.le_succ i) (ih _ _ _ (by omega))

/-- In exact arithmetic the first pass of the loop only moves `z = 0` to `z = c`. -/
theorem iter_exact_first_pass (cx cy : ℚ) :
    iter exact cx cy = iterLoop exact cx cy 99 1 cx cy := by
  have e : iter exact cx cy = iterLoop exact cx cy (99 + 1) 0 0 0 := rfl
  rw [e, iterLoop_continue exact cx cy 99 0 0 0 (by simp [exact])]
  simp [exact]

theorem iter_exact_ge_one (cx cy : ℚ) : 1 ≤ iter exact cx cy := by
  rw [iter_exact_first_pass]
  exact iterLoop_ge exact cx cy 99 1 cx cy (by decide)

theorem iter_exact_eq_one_iff (cx cy : ℚ) : iter exact cx cy = 1 ↔ cx * cx + cy * cy > 4 := by
  constructor
  · intro h
    by_contra hn
    have hg : exact.gt (exact.add (exact.mul cx cx) (exact.mul cy cy)) (exact.lit 4) = false := by
      simpa [exact] using hn
    rw [iter_exact_first_pass, iterLoop_continue exact cx cy 98 1 cx cy hg] at h
    have := iterLoop_ge exact cx cy 98 (1 + 1)
      (exact.add (exact.sub (exact.mul cx cx) (exact.mul cy cy)) cx)
      (exact.add (exact.mul (exact.lit 2) (exact.mul cx cy)) cy) (by decide)
    omega
  · exact iter_exact_outside cx cy

theorem iterLoop_conj (cx cy : ℚ) :
    ∀ (n i : Nat) (x y : ℚ),
      iterLoop exact cx (-cy) n i x (-y) = iterLoop exact cx cy n i x y := by
  intro n
  induction n with
  | zero => intro i x y; simp [iterLoop]
  | succ n ih =>
    intro i x y
    have e1 : exact.add (exact.mul x x) (exact.mul (-y) (-y)) =
        exact.add (exact.mul x x) (exact.mul y y) := by
      simp [exact]
    cases hg : exact.gt (exact.add (exact.mul x x) (exact.mul y y)) (exact.lit 4) with
    | true =>
      rw [iterLoop_escape exact cx cy n i x y hg,
        iterLoop_escape exact cx (-cy) n i x (-y) (by rw [e1]; exact hg)]
    | false =>
      rw [iterLoop_continue exact cx cy n i x y hg,
        iterLoop_continue exact cx (-cy) n i x (-y) (by rw [e1]; exact hg)]
      have e2 : exact.add (exact.sub (exact.mul x x) (exact.mul (-y) (-y))) cx =
          exact.add (exact.sub (exact.mul x x) (exact.mul y y)) cx := by
        simp [exact]
      have e3 : exact.add (exact.mul (exact.lit 2) (exact.mul x (-y))) (-cy) =
          -(exact.add (exact.mul (exact.lit 2) (exact.mul x y)) cy) := by
        simp only [exact]
        ring
      rw [e2, e3]
      exact ih (i + 1) _ _

/-! ## Lemmas on the coordinates, the tick and the palette -/

theorem realC_exact (centerX size : ℚ) (i : Nat) :
    realC exact centerX size i = (i : ℚ) * size / 500 - size / 2 + centerX := by
  simp [realC, exact, screenWidth]

theorem imagC_exact (centerY size : ℚ) (j : Nat) :
    imagC exact centerY size j = (500 - (j : ℚ)) * size / 500 - size / 2 + centerY := by
  simp [imagC, exact, screenHeight]

/-- The bytes of a pixel after a frame, in terms of the colour computed for it. -/
theorem updateOffscreen_colour {α : Type} (A : Arith α) (m : Mandelbrot α)
    (centerX centerY size : α) (hpal : maxIt ≤ m.palette.length)
    (hlen : m.offscreenPix.length = screenWidth * screenHeight * 4) :
    ∃ m', updateOffscreen A m centerX centerY size = some m' ∧
      ∀ px py c, px < 500 → py < 500 →
        pixelColour A m.palette centerX centerY size py px = some c →
        ∀ ch, ch < 4 → m'.offscreenPix[4 * (px + py * 500) + ch]? = some (c.chan ch) := by
  obtain ⟨pix', hu, _, hq⟩ := updateOffscreen_some A m centerX centerY size hpal hlen
  refine ⟨_, hu, ?_⟩
  intro px py c hpx hpy hc ch hch
  have hlt : 4 * (px + py * 500) + ch < screenWidth * screenHeight * 4 := by
    unfold screenWidth screenHeight
    omega
  show pix'[4 * (px + py * 500) + ch]? = some (c.chan ch)
  rw [hq _ hlt]
  exact congrArg some (frameByte_pixel A m.palette centerX centerY size px py ch hpx hch c hc)

/-- What a call of `Update` that returns has done. -/
theorem Update_some {α : Type} (A : Arith α) (m m' : Mandelbrot α) (h : Update A m = some m') :
    ∃ r, updateOffscreen A m (A.lit (-0.70)) (A.lit 0.25) m.zoom = some r ∧
      m' = { r with zoom := A.mul r.zoom (A.lit 0.995) } := by
  unfold Update at h
  simp only [Option.map_eq_some'] at h
  obtain ⟨r, hr, rfl⟩ := h
  exact ⟨r, hr, rfl⟩

/-- A call of `Update` returns when the palette has at least `maxIt` entries and the
buffer `4 * screenWidth * screenHeight` bytes. -/
theorem Update_returns {α : Type} (A : Arith α) (m : Mandelbrot α)
    (hpal : maxIt ≤ m.palette.length)
    (hlen : m.offscreenPix.length = screenWidth * screenHeight * 4) :
    ∃ m', Update A m = some m' := by
  obtain ⟨pix', hu, _⟩ :=
    updateOffscreen_some A m (A.lit (-0.70)) (A.lit 0.25) m.zoom hpal hlen
  exact ⟨_, by rw [Update, hu]; rfl⟩

/-- When the test on `z = 0` fails, the first pass of the loop only moves `z_0` to
`z_1`. -/
theorem iter_first_pass {α : Type} (A : Arith α)
    (hz : A.gt (A.add (A.mul (A.lit 0) (A.lit 0)) (A.mul (A.lit 0) (A.lit 0))) (A.lit 4) = false)
    (cx cy : α) :
    iter A cx cy = iterLoop A cx cy 99 1 (orbit A cx cy 1).1 (orbit A cx cy 1).2 := by
  have e : iter A cx cy = iterLoop A cx cy (99 + 1) 0 (A.lit 0) (A.lit 0) := rfl
  rw [e, iterLoop_continue A cx cy 99 0 _ _ hz]
  rfl

theorem iter_ge_one {α : Type} (A : Arith α)
    (hz : A.gt (A.add (A.mul (A.lit 0) (A.lit 0)) (A.mul (A.lit 0) (A.lit 0))) (A.lit 4) = false)
    (cx cy : α) : 1 ≤ iter A cx cy := by
  rw [iter_first_pass A hz]
  exact iterLoop_ge A cx cy 99 1 _ _ (by decide)

theorem iter_eq_one_iff {α : Type} (A : Arith α)
    (hz : A.gt (A.add (A.mul (A.lit 0) (A.lit 0)) (A.mul (A.lit 0) (A.lit 0))) (A.lit 4) = false)
    (cx cy : α) : iter A cx cy = 1 ↔ outside A (orbit A cx cy 1) = true := by
  rw [iter_first_pass A hz]
  constructor
  · intro h
    by_contra hn
    have hg : outside A (orbit A cx cy 1) = false := by
      cases ho : outside A (orbit A cx cy 1) with
      | true => exact absurd ho hn
      | false => rfl
    rw [iterLoop_continue A cx cy 98 1 _ _ hg] at h
    have := iterLoop_ge A cx cy 98 (1 + 1)
      (A.add (A.sub (A.mul (orbit A cx cy 1).1 (orbit A cx cy 1).1)
        (A.mul (orbit A cx cy 1).2 (orbit A cx cy 1).2)) cx)
      (A.add (A.mul (A.lit 2) (A.mul (orbit A cx cy 1).1 (orbit A cx cy 1).2)) cy) (by decide)
    omega
  · intro h
    exact iterLoop_escape A cx cy 98 1 _ _ h

/-- When the test on `z = 0` fails no pixel looks up palette entry 0, so the colour of a
pixel does not depend on that entry. -/
theorem pixelColour_cons {α : Type} (A : Arith α)
    (hz : A.gt (A.add (A.mul (A.lit 0) (A.lit 0)) (A.mul (A.lit 0) (A.lit 0))) (A.lit 4) = false)
    (c0 c0' : RGBA) (rest : List RGBA) (centerX centerY size : α) (j i : Nat) :
    pixelColour A (c0 :: rest) centerX centerY size j i =
      pixelColour A (c0' :: rest) centerX centerY size j i := by
  unfold pixelColour
  have hge := iter_ge_one A hz (realC A centerX size i) (imagC A centerY size j)
  obtain ⟨k, hk⟩ : ∃ k, iter A (realC A centerX size i) (imagC A centerY size j) =
      k + 1 := ⟨_, (Nat.sub_add_cancel hge).symm⟩
  simp only [hk, List.getElem?_cons_succ]

theorem runRows_cons {α : Type} (A : Arith α)
    (hz : A.gt (A.add (A.mul (A.lit 0) (A.lit 0)) (A.mul (A.lit 0) (A.lit 0))) (A.lit 4) = false)
    (c0 c0' : RGBA) (rest : List RGBA) (centerX centerY size : α)
    (order : List Nat) (pix : List Nat) :
    runRows A (c0 :: rest) centerX centerY size order pix =
      runRows A (c0' :: rest) centerX centerY size order pix := by
  have hp : ∀ j i, pixelBody A (c0 :: rest) centerX centerY size j i =
      pixelBody A (c0' :: rest) centerX centerY size j i := by
    intro j i
    funext p
    rw [pixelBody_eq, pixelBody_eq, pixelColour_cons A hz c0 c0']
  have hr : ∀ j, rowBody A (c0 :: rest) centerX centerY size j =
      rowBody A (c0' :: rest) centerX centerY size j := by
    intro j
    funext p
    unfold rowBody
    simp only [hp]
  unfold runRows
  simp only [hr]

/-- The test `0*0 + 0*0 > 4` fails on binary64. -/
theorem float64_origin_test :
    float64.gt (float64.add (float64.mul (float64.lit 0) (float64.lit 0))
      (float64.mul (float64.lit 0) (float64.lit 0))) (float64.lit 4) = false := by
  decide!

/-- The test `0*0 + 0*0 > 4` fails in exact arithmetic. -/
theorem exact_origin_test :
    exact.gt (exact.add (exact.mul (exact.lit 0) (exact.lit 0))
      (exact.mul (exact.lit 0) (exact.lit 0))) (exact.lit 4) = false := by
  simp [exact]

theorem uint8_rgba16 (v : Nat) (h : v < 256) : uint8 (v ||| (v <<< 8)) = v := by
  unfold uint8
  interval_cases v <;> rfl

theorem NewMandelbrot_palette_eq {α : Type} (A : Arith α) (plan9 : List RGBA)
    (h : ∀ c ∈ plan9, c.R < 256 ∧ c.G < 256 ∧ c.B < 256 ∧ c.A < 256) :
    (NewMandelbrot A plan9).palette = plan9 := by
  unfold NewMandelbrot
  simp only
  conv_rhs => rw [← List.map_id plan9]
  apply List.map_congr_left
  intro c hc
  obtain ⟨hR, hG, hB, hA⟩ := h c hc
  simp only [RGBA.rgba, uint8_rgba16 _ hR, uint8_rgba16 _ hG, uint8_rgba16 _ hB,
    uint8_rgba16 _ hA, id]

/-- Conjugating `c` conjugates every point of the orbit (exact arithmetic). -/
theorem orbit_conj (cx cy : ℚ) :
    ∀ n, orbit exact cx (-cy) n = ((orbit exact cx cy n).1, -(orbit exact cx cy n).2) := by
  intro n
  induction n with
  | zero => simp [orbit, exact]
  | succ n ih =>
    rw [orbit, ih]
    simp only [orbit, orbitStep, exact]
    ext
    · simp
    · simp only
      ring

/-! ## The claims -/

/-- C1, the claim as stated fails for a palette that is too short: with the empty palette
and the view `(0, 0, 4)` pixel `(0, 0)` has `k = iter(-2, 2) = 1 < maxIt`, the lookup
`palette[1]` is out of range, and `updateOffscreen` panics instead of filling the
buffer. -/
theorem updateOffscreen_empty_palette_panics :
    iter exact (realC exact 0 4 0) (imagC exact 0 4 0) = 1 ∧
      ([] : List RGBA)[1]? = none ∧
      updateOffscreen exact ⟨List.replicate (500 * 500 * 4) 0, [], 2⟩ 0 0 4 = none := by
  have hk : iter exact (realC exact 0 4 0) (imagC exact 0 4 0) = 1 := by
    apply iter_exact_outside
    simp [realC, imagC, exact, screenWidth, screenHeight]
    norm_num
  refine ⟨hk, rfl, ?_⟩
  have hnot : ¬ ∀ j ∈ List.range screenHeight, ∀ i ∈ rowColumns,
      pixelOk exact [] 0 0 4 j i (List.replicate (500 * 500 * 4) 0).length := by
    intro H
    have h00 := (H 0 (by simp [screenHeight]) 0 (by simp [rowColumns, screenHeight])).1
    have hc : pixelColour exact [] 0 0 4 0 0 = none := by
      unfold pixelColour
      simp only [hk]
      simp [maxIt]
    rw [hc] at h00
    simp at h00
  have hnone := (paints_rows exact [] 0 0 4 (List.range screenHeight)
    (List.replicate (500 * 500 * 4) 0)).2 hnot
  unfold updateOffscreen
  rw [hnone]
  rfl

/-- C1, amended: for every view `(centerX, centerY, size)`, every palette with at least
`maxIt` entries and every prior buffer of length `500*500*4`, `updateOffscreen` returns,
and afterwards each pixel `(px, py)` with `px < 500` and `py < 500` holds, at the byte
offsets `4*(px + py*500) .. +3`, the R, G, B, A of `palette[k]` when `k < maxIt` and the
bytes 0, 0, 0, 0 when `k = maxIt`, where
`k = iter(px*size/500 - size/2 + centerX, (500 - py)*size/500 - size/2 + centerY)`. -/
theorem updateOffscreen_pixels {α : Type} (A : Arith α) (m : Mandelbrot α)
    (centerX centerY size : α) (hlen : m.offscreenPix.length = 500 * 500 * 4)
    (hpal : maxIt ≤ m.palette.length) :
    ∃ m', updateOffscreen A m centerX centerY size = some m' ∧
      ∀ px py, px < 500 → py < 500 →
        ∃ c : RGBA,
          (iter A (realC A centerX size px) (imagC A centerY size py) < maxIt →
            m.palette[iter A (realC A centerX size px) (imagC A centerY size py)]? = some c) ∧
          (iter A (realC A centerX size px) (imagC A centerY size py) = maxIt →
            c = ⟨0, 0, 0, 0⟩) ∧
          m'.offscreenPix[4 * (px + py * 500)]? = some c.R ∧
          m'.offscreenPix[4 * (px + py * 500) + 1]? = some c.G ∧
          m'.offscreenPix[4 * (px + py * 500) + 2]? = some c.B ∧
          m'.offscreenPix[4 * (px + py * 500) + 3]? = some c.A := by
  obtain ⟨pix', hu, _, hq⟩ := updateOffscreen_some A m centerX centerY size hpal hlen
  refine ⟨_, hu, ?_⟩
  intro px py hpx hpy
  have hsome := pixelColour_isSome A m.palette centerX centerY size py px hpal
  obtain ⟨c, hc⟩ := Option.isSome_iff_exists.1 hsome
  have hb : ∀ ch, ch < 4 →
      pix'[4 * (px + py * 500) + ch]? = some (c.chan ch) := by
    intro ch hch
    have hlt : 4 * (px + py * 500) + ch < screenWidth * screenHeight * 4 := by
      unfold screenWidth screenHeight
      omega
    rw [hq _ hlt]
    exact congrArg some (frameByte_pixel A m.palette centerX centerY size px py ch hpx hch c hc)
  refine ⟨c, ?_, ?_, hb 0 (by decide), hb 1 (by decide), hb 2 (by decide), hb 3 (by decide)⟩
  · intro hk
    unfold pixelColour at hc
    simpa [hk] using hc
  · intro hk
    unfold pixelColour at hc
    have : ¬ iter A (realC A centerX size px) (imagC A centerY size py) < maxIt := by omega
    simp only [this, if_false, Option.some.injEq] at hc
    exact hc.symm

/-- C1, witness: the sample state (all-zero buffer, 100 palette entries) and the view
`(0, 0, 4)`. -/
theorem updateOffscreen_pixels_witness :
    sampleState.offscreenPix.length = 500 * 500 * 4 ∧ maxIt ≤ sampleState.palette.length ∧
      ∃ m', updateOffscreen exact sampleState 0 0 4 = some m' ∧
        m'.offscreenPix[0]? = some 10 ∧ m'.offscreenPix[1]? = some 20 ∧
        m'.offscreenPix[2]? = some 30 ∧ m'.offscreenPix[3]? = some 255 := by
  have h1 : sampleState.offscreenPix.length = 500 * 500 * 4 := List.length_replicate _ _
  have h2 : maxIt ≤ sampleState.palette.length := by decide
  obtain ⟨m', hu, hpix⟩ := updateOffscreen_pixels exact sampleState 0 0 4 h1 h2
  obtain ⟨c, hc, _, hR, hG, hB, hA⟩ := hpix 0 0 (by decide) (by decide)
  have hk : iter exact (realC exact 0 4 0) (imagC exact 0 4 0) = 1 := by
    apply iter_exact_outside
    simp [realC, imagC, exact, screenWidth, screenHeight]
    norm_num
  rw [hk] at hc
  have hc' : c = ⟨10, 20, 30, 255⟩ := by
    have h1 := hc (by decide)
    have h2 : sampleState.palette[1]? = some ⟨10, 20, 30, 255⟩ := rfl
    rw [h2] at h1
    exact (Option.some.inj h1).symm
  subst hc'
  exact ⟨h1, h2, m', hu, hR, hG, hB, hA⟩

/-- C2: for every input `(cx, cy)`, in every arithmetic (no bound on the magnitude of the
input), `iter` terminates: the loop, run step by step from its initial state, returns
after at most `maxIt = 100` executions of its body, whatever fuel of at least `maxIt + 1`
visits of the loop head it is given, and the value returned is `iter cx cy`, an integer
`n` with `0 ≤ n ≤ maxIt`. -/
theorem iter_terminates_within_maxIt {α : Type} (A : Arith α) (cx cy : α) :
    maxIt = 100 ∧ 0 ≤ iter A cx cy ∧ iter A cx cy ≤ maxIt ∧
      ∃ bodies, bodies ≤ maxIt ∧
        ∀ k, iterRun A cx cy (maxIt + 1 + k) (iterInit A) = some (iter A cx cy, bodies) := by
  refine ⟨rfl, Nat.zero_le _, iter_le_maxIt A cx cy, ?_⟩
  obtain ⟨b, hb, hrun⟩ := iterRun_iterLoop A cx cy maxIt 0 (A.lit 0) (A.lit 0) (by omega)
  exact ⟨b, hb, fun k => iterRun_mono A cx cy (maxIt + 1) k _ _ hrun⟩

/-- C3, the claim as stated fails: at `c = (2, 2)` the specification's algorithm returns
`0` (the first update gives `z = 2 + 2i`, and `8 > 4`), and `iter` returns `1`. -/
theorem iter_ne_specIterate_at_2_2 :
    specIterate exact 2 2 = 0 ∧ iter exact 2 2 = 1 ∧ iter exact 2 2 ≠ specIterate exact 2 2 := by
  have hs : specIterate exact 2 2 = 0 := by
    have e : specIterate exact 2 2 = specLoop exact 2 2 (99 + 1) 0 0 0 := rfl
    rw [e, specLoop]
    simp [exact]
    norm_num
  have hi : iter exact 2 2 = 1 := iter_exact_outside 2 2 (by norm_num)
  exact ⟨hs, hi, by rw [hs, hi]; decide⟩

/-- C3, amended: in every arithmetic in which the test `0*0 + 0*0 > 4` fails, and for
every `(cx, cy)`, `iter cx cy` is the result of the specification's algorithm plus one,
capped at `maxIt`: the code tests each point before it updates it, so the first test is
made on `z = 0` and a test that succeeds after update number `k` (0-indexed) returns
`k + 1`; the point reached by the last of `maxIt` updates is never tested. -/
theorem iter_eq_specIterate_succ_capped {α : Type} (A : Arith α)
    (hz : A.gt (A.add (A.mul (A.lit 0) (A.lit 0)) (A.mul (A.lit 0) (A.lit 0))) (A.lit 4) = false)
    (cx cy : α) :
    iter A cx cy = min maxIt (specIterate A cx cy + 1) := by
  have e : iter A cx cy = iterLoop A cx cy (99 + 1) 0 (A.lit 0) (A.lit 0) := rfl
  rw [e, iterLoop_continue A cx cy 99 0 _ _ hz]
  exact iterLoop_specLoop A cx cy 99 0 (A.lit 0) (A.lit 0) (by decide)

theorem iter_eq_specIterate_succ_capped_witness :
    exact.gt (exact.add (exact.mul (exact.lit 0) (exact.lit 0))
        (exact.mul (exact.lit 0) (exact.lit 0))) (exact.lit 4) = false ∧
      iter exact 2 2 = min maxIt (specIterate exact 2 2 + 1) :=
  ⟨by simp [exact], iter_eq_specIterate_succ_capped exact (by simp [exact]) 2 2⟩

/-- C4, the claim as stated fails: `iter(2, 2)` is `1`, not `0` (and so is
`iter(3, 3)`). -/
theorem iter_2_2_and_3_3_not_zero :
    iter exact 2 2 = 1 ∧ iter exact 3 3 = 1 ∧ ¬ (iter exact 2 2 = 0 ∧ iter exact 3 3 = 0) := by
  have h2 : iter exact 2 2 = 1 := iter_exact_outside 2 2 (by norm_num)
  have h3 : iter exact 3 3 = 1 := iter_exact_outside 3 3 (by norm_num)
  refine ⟨h2, h3, ?_⟩
  rw [h2]
  simp

/-- C4, amended: a point `c` whose first iterate `z = c` already has `|z|² > 4` escapes at
the first test made after an update and yields iteration count `1` (in exact
arithmetic); so `iter(2, 2)` returns `1` and `iter(3, 3)` returns `1`. -/
theorem iter_first_iterate_outside (cx cy : ℚ) (h : cx * cx + cy * cy > 4) :
    iter exact cx cy = 1 :=
  iter_exact_outside cx cy h

theorem iter_first_iterate_outside_witness : iter exact 2 2 = 1 ∧ iter exact 3 3 = 1 :=
  ⟨iter_first_iterate_outside 2 2 (by norm_num), iter_first_iterate_outside 3 3 (by norm_num)⟩

/-- C5: `iter(0, 0)` returns `maxIt = 100` (in exact arithmetic): the orbit of the origin
stays at `z = 0`, the test `x² + y² > 4` never succeeds, and the loop body runs `maxIt`
times, to the cap. -/
theorem iter_origin :
    iter exact 0 0 = maxIt ∧ maxIt = 100 ∧
      iterRun exact 0 0 (maxIt + 1) (iterInit exact) = some (maxIt, maxIt) :=
  ⟨iterLoop_origin maxIt 0, rfl, iterRun_origin maxIt 0 (by omega)⟩

/-- C6: `iter(-1, 0)` returns `maxIt = 100` (the orbit 0, -1, 0, -1, ... never escapes)
and `iter(5, 5)` returns a value in `{0, 1}` (in exact arithmetic). -/
theorem iter_minus_one_and_5_5 :
    iter exact (-1) 0 = maxIt ∧ maxIt = 100 ∧ (iter exact 5 5 = 0 ∨ iter exact 5 5 = 1) :=
  ⟨(iterLoop_minus_one maxIt 0).1, rfl, Or.inr (iter_exact_outside 5 5 (by norm_num))⟩

/-- C7: the frame produced by `updateOffscreen` does not depend on the order in which
the rows are run: for every arithmetic, view, palette and prior buffer, and for every
permutation `order` of the row indices `0..499`, running the row bodies one after another
in that order gives the same outcome (the same pixel buffer, or a panic in both cases)
as running them in ascending order; two runs in two such orders agree as well; and with a
palette of at least `maxIt` entries and a buffer of `500*500*4` bytes the outcome is a
buffer. -/
theorem updateOffscreen_row_order_irrelevant {α : Type} (A : Arith α) (m : Mandelbrot α)
    (centerX centerY size : α) (order : List Nat)
    (horder : order.Perm (List.range screenHeight)) :
    updateOffscreenIn A order m centerX centerY size = updateOffscreen A m centerX centerY size ∧
      (∀ order', order'.Perm (List.range screenHeight) →
        updateOffscreenIn A order' m centerX centerY size =
          updateOffscreenIn A order m centerX centerY size) ∧
      (maxIt ≤ m.palette.length → m.offscreenPix.length = 500 * 500 * 4 →
        (updateOffscreenIn A order m centerX centerY size).isSome = true) := by
  have key : ∀ o : List Nat, o.Perm (List.range screenHeight) →
      updateOffscreenIn A o m centerX centerY size = updateOffscreen A m centerX centerY size := by
    intro o ho
    unfold updateOffscreenIn updateOffscreen
    rw [runRows_perm A m.palette centerX centerY size o _ ho]
  refine ⟨key order horder, fun o ho => by rw [key o ho, key order horder], ?_⟩
  intro hpal hlen
  rw [key order horder]
  obtain ⟨pix', hu, _⟩ := updateOffscreen_some A m centerX centerY size hpal hlen
  rw [hu]
  rfl

theorem updateOffscreen_row_order_irrelevant_witness :
    (List.range screenHeight).reverse.Perm (List.range screenHeight) ∧
      updateOffscreenIn exact (List.range screenHeight).reverse sampleState 0 0 4 =
        updateOffscreen exact sampleState 0 0 4 :=
  ⟨List.reverse_perm _,
    (updateOffscreen_row_order_irrelevant exact sampleState 0 0 4 _ (List.reverse_perm _)).1⟩

/-- C8: no stale data survives a frame: for every arithmetic, view and palette and for any
two prior buffers `b1`, `b2` of length `500*500*4`, `updateOffscreen` started from `b1`
and started from `b2` have the same outcome; when it returns, the buffer has
`500*500*4` bytes and every one of them holds the byte of the new frame (`frameByte`),
which does not mention the prior buffer; and it does return when the palette has at
least `maxIt` entries (the column loop, bounded by `screenHeight`, covers all
`screenWidth` columns because the two constants are equal). -/
theorem updateOffscreen_overwrites {α : Type} (A : Arith α) (m : Mandelbrot α)
    (b1 b2 : List Nat) (centerX centerY size : α)
    (h1 : b1.length = 500 * 500 * 4) (h2 : b2.length = 500 * 500 * 4) :
    updateOffscreen A { m with offscreenPix := b1 } centerX centerY size =
        updateOffscreen A { m with offscreenPix := b2 } centerX centerY size ∧
      (∀ m', updateOffscreen A { m with offscreenPix := b1 } centerX centerY size = some m' →
        m'.offscreenPix.length = 500 * 500 * 4 ∧
        ∀ q, q < 500 * 500 * 4 →
          m'.offscreenPix[q]? = some (frameByte A m.palette centerX centerY size q)) ∧
      (maxIt ≤ m.palette.length →
        (updateOffscreen A { m with offscreenPix := b1 } centerX centerY size).isSome = true) := by
  refine ⟨?_, ?_, ?_⟩
  · unfold updateOffscreen
    have e := paints_overwrite _ _ _ _
      (paints_rows A m.palette centerX centerY size (List.range screenHeight)) b1 b2
      (by rw [h1, h2]) (fun q hq => (owned_iff q).2 (by rw [h1] at hq; exact hq))
    simp only [e]
  · intro m' hm'
    unfold updateOffscreen at hm'
    simp only [Option.map_eq_some'] at hm'
    obtain ⟨pix', hrun, rfl⟩ := hm'
    exact runRows_some_frame A m.palette centerX centerY size b1 pix' h1 hrun
  · intro hpal
    obtain ⟨pix', hu, _⟩ :=
      updateOffscreen_some A { m with offscreenPix := b1 } centerX centerY size hpal h1
    rw [hu]
    rfl

theorem updateOffscreen_overwrites_witness :
    (List.replicate (500 * 500 * 4) 0).length = 500 * 500 * 4 ∧
      (List.replicate (500 * 500 * 4) 7).length = 500 * 500 * 4 ∧
      updateOffscreen exact { sampleState with offscreenPix := List.replicate (500 * 500 * 4) 0 }
          0 0 4 =
        updateOffscreen exact { sampleState with offscreenPix := List.replicate (500 * 500 * 4) 7 }
          0 0 4 :=
  ⟨List.length_replicate _ _, List.length_replicate _ _,
    (updateOffscreen_overwrites exact sampleState _ _ 0 0 4 (List.length_replicate _ _)
      (List.length_replicate _ _)).1⟩

/-- C9: row workers write disjoint, in-bounds byte ranges: for every row `j < 500` and
every column `i` that the row's loop visits, the four indices `p, p+1, p+2, p+3` with
`p = 4*(i + j*screenWidth)` satisfy `j*screenWidth*4 ≤ p` and
`p+3 < (j+1)*screenWidth*4 ≤ len(offscreenPix) = 500*500*4`, so no store is out of range;
the body of pixel `(j, i)` changes no byte outside these four indices and the row body no
byte outside `[j*screenWidth*4, (j+1)*screenWidth*4)`; and two different rows never
write the same byte. -/
theorem row_writes_disjoint_in_bounds {α : Type} (A : Arith α) (plan9 : List RGBA) (j : Nat)
    (hj : j < screenHeight) :
    (NewMandelbrot A plan9).offscreenPix.length = 500 * 500 * 4 ∧
      (j + 1) * screenWidth * 4 ≤ (NewMandelbrot A plan9).offscreenPix.length ∧
      (∀ i ∈ rowColumns, writeIndices j i =
          [4 * (i + j * screenWidth), 4 * (i + j * screenWidth) + 1,
            4 * (i + j * screenWidth) + 2, 4 * (i + j * screenWidth) + 3] ∧
        j * screenWidth * 4 ≤ 4 * (i + j * screenWidth) ∧
        4 * (i + j * screenWidth) + 3 < (j + 1) * screenWidth * 4) ∧
      (∀ i ∈ rowColumns, ∀ q ∈ writeIndices j i,
        q < (NewMandelbrot A plan9).offscreenPix.length) ∧
      (∀ i ∈ rowColumns, ∀ palette centerX centerY size pix pix',
        pixelBody A palette centerX centerY size j i pix = some pix' →
          ∀ q, q ∉ writeIndices j i → pix'[q]? = pix[q]?) ∧
      (∀ palette centerX centerY size pix pix',
        rowBody A palette centerX centerY size j pix = some pix' →
          ∀ q, q < j * screenWidth * 4 ∨ (j + 1) * screenWidth * 4 ≤ q → pix'[q]? = pix[q]?) ∧
      (∀ j' i i' q, j' ≠ j → i ∈ rowColumns → i' ∈ rowColumns →
        q ∈ writeIndices j i → q ∉ writeIndices j' i') := by
  have hlen : (NewMandelbrot A plan9).offscreenPix.length = 500 * 500 * 4 :=
    NewMandelbrot_pix_length A plan9
  have hcol : ∀ i ∈ rowColumns, i < 500 := by
    intro i hi
    simpa [rowColumns, screenHeight] using hi
  refine ⟨hlen, ?_, ?_, ?_, ?_, ?_, ?_⟩
  · rw [hlen]
    unfold screenWidth screenHeight at *
    omega
  · intro i hi
    have := hcol i hi
    refine ⟨rfl, ?_, ?_⟩ <;> (unfold screenWidth; omega)
  · intro i hi q hq
    have := hcol i hi
    rw [hlen]
    rw [mem_writeIndices] at hq
    unfold pixelOwns at hq
    unfold screenWidth screenHeight at *
    omega
  · intro i hi palette centerX centerY size pix pix' h q hq
    exact pixelBody_writes A palette centerX centerY size j i (hcol i hi) pix pix' h q hq
  · intro palette centerX centerY size pix pix' h q hq
    exact (rowBody_writes A palette centerX centerY size j pix pix' h q hq).2
  · intro j' i i' q hne hi hi' hq hq'
    have := hcol i hi
    have := hcol i' hi'
    rw [mem_writeIndices] at hq hq'
    unfold pixelOwns at hq hq'
    unfold screenWidth at *
    have : j = j' := by omega
    exact hne this.symm

theorem row_writes_disjoint_in_bounds_witness :
    499 < screenHeight ∧
      (∀ i ∈ rowColumns, ∀ q ∈ writeIndices 499 i,
        q < (NewMandelbrot exact samplePlan9).offscreenPix.length) :=
  ⟨by decide, (row_writes_disjoint_in_bounds exact samplePlan9 499 (by decide)).2.2.2.1⟩

/-- C10: the zoom schedule, in exact arithmetic: starting from the state built by
`NewMandelbrot` (zoom = 2; `palette.Plan9` has 256 entries, at least `maxIt` of them are
needed), `N` calls of `Update` return, and the zoom field then equals `2 * 0.995^N`, for
every natural number `N`; the next call, call number `N` counting from 0, renders with
centre `(-0.70, 0.25)` and size `2 * 0.995^N`; and rendering leaves the zoom field
alone, so the value depends on nothing that rendering computes. -/
theorem zoom_schedule (plan9 : List RGBA) (hplan9 : maxIt ≤ plan9.length) (N : Nat) :
    ∃ m, updateN exact N (NewMandelbrot exact plan9) = some m ∧
      m.zoom = 2 * (0.995 : ℚ) ^ N ∧
      Update exact m =
        (updateOffscreen exact m (-0.70) 0.25 (2 * (0.995 : ℚ) ^ N)).map
          (fun m' => { m' with zoom := m'.zoom * 0.995 }) ∧
      (∀ (m1 m1' : Mandelbrot ℚ) (centerX centerY size : ℚ),
        updateOffscreen exact m1 centerX centerY size = some m1' → m1'.zoom = m1.zoom) := by
  obtain ⟨m, hm, hz, _, _⟩ := updateN_exact plan9 hplan9 N
  refine ⟨m, hm, hz, ?_, ?_⟩
  · rw [← hz]
    rfl
  · intro m1 m1' centerX centerY size h
    exact (updateOffscreen_frame exact m1 m1' centerX centerY size h).1

theorem zoom_schedule_witness :
    maxIt ≤ samplePlan9.length ∧
      ∃ m, updateN exact 3 (NewMandelbrot exact samplePlan9) = some m ∧
        m.zoom = 2 * (0.995 : ℚ) ^ 3 := by
  have h : maxIt ≤ samplePlan9.length := by
    rw [samplePlan9, List.length_replicate]
    decide
  obtain ⟨m, hm, hz, _⟩ := zoom_schedule samplePlan9 h 3
  exact ⟨h, m, hm, hz⟩

/-- C11, the claim as stated fails on the code: on binary64, with the view
`(-0.70, 0.25, 1.6448645648696971)`, whose size is the zoom after 39 multiplications
of 2 by 0.995 (frame 39 of the program's own schedule), pixel `(250, 250)` maps to `(-0.6999999999999998, 0.2500000000000001)` and not
to the centre `(-0.70, 0.25)`: `250*size/500` and `size/2` round differently. -/
theorem centre_pixel_off_centre_float64 :
    Nat.iterate (fun z => float64.mul z (float64.lit 0.995)) 39 (float64.lit 2) =
        float64.lit 1.6448645648696971 ∧
      realC float64 (float64.lit (-0.70)) (float64.lit 1.6448645648696971) 250 =
        float64.lit (-0.6999999999999998) ∧
      imagC float64 (float64.lit 0.25) (float64.lit 1.6448645648696971) 250 =
        float64.lit 0.2500000000000001 ∧
      realC float64 (float64.lit (-0.70)) (float64.lit 1.6448645648696971) 250 ≠
        float64.lit (-0.70) ∧
      imagC float64 (float64.lit 0.25) (float64.lit 1.6448645648696971) 250 ≠
        float64.lit 0.25 := by
  refine ⟨?_, ?_, ?_, ?_, ?_⟩ <;> decide!

/-- C11, amended: the image-centre pixel samples the view centre in exact arithmetic: for
every view, pixel `(px, py) = (width/2, height/2) = (250, 250)` maps to
`(centerX, centerY)` when the coordinates are evaluated without rounding.  On the code
(binary64) this holds for the view `(0, 0, 4)`: there the centre pixel maps to `(0, 0)`,
gets iteration count `maxIt` and, on a buffer of `500*500*4` bytes with a palette of at
least `maxIt` entries, is written as `(0, 0, 0, 0)`, while each of the corner pixels
`(0, 0)`, `(499, 0)`, `(0, 499)`, `(499, 499)` gets an iteration count of at most 1. -/
theorem centre_pixel_samples_view_centre (m : Mandelbrot F64)
    (hlen : m.offscreenPix.length = 500 * 500 * 4) (hpal : maxIt ≤ m.palette.length) :
    screenWidth / 2 = 250 ∧ screenHeight / 2 = 250 ∧
      (∀ centerX centerY size : ℚ,
        realC exact centerX size 250 = centerX ∧ imagC exact centerY size 250 = centerY) ∧
      realC float64 (float64.lit 0) (float64.lit 4) 250 = float64.lit 0 ∧
      imagC float64 (float64.lit 0) (float64.lit 4) 250 = float64.lit 0 ∧
      iter float64 (realC float64 (float64.lit 0) (float64.lit 4) 250)
        (imagC float64 (float64.lit 0) (float64.lit 4) 250) = maxIt ∧
      (∃ m', updateOffscreen float64 m (float64.lit 0) (float64.lit 0) (float64.lit 4) =
          some m' ∧
        m'.offscreenPix[4 * (250 + 250 * 500)]? = some 0 ∧
        m'.offscreenPix[4 * (250 + 250 * 500) + 1]? = some 0 ∧
        m'.offscreenPix[4 * (250 + 250 * 500) + 2]? = some 0 ∧
        m'.offscreenPix[4 * (250 + 250 * 500) + 3]? = some 0) ∧
      iter float64 (realC float64 (float64.lit 0) (float64.lit 4) 0)
        (imagC float64 (float64.lit 0) (float64.lit 4) 0) ≤ 1 ∧
      iter float64 (realC float64 (float64.lit 0) (float64.lit 4) 499)
        (imagC float64 (float64.lit 0) (float64.lit 4) 0) ≤ 1 ∧
      iter float64 (realC float64 (float64.lit 0) (float64.lit 4) 0)
        (imagC float64 (float64.lit 0) (float64.lit 4) 499) ≤ 1 ∧
      iter float64 (realC float64 (float64.lit 0) (float64.lit 4) 499)
        (imagC float64 (float64.lit 0) (float64.lit 4) 499) ≤ 1 := by
  have hcentre : ∀ centerX centerY size : ℚ,
      realC exact centerX size 250 = centerX ∧ imagC exact centerY size 250 = centerY := by
    intro centerX centerY size
    rw [realC_exact, imagC_exact]
    constructor
    · push_cast
      ring
    · push_cast
      ring
  have hit : iter float64 (realC float64 (float64.lit 0) (float64.lit 4) 250)
      (imagC float64 (float64.lit 0) (float64.lit 4) 250) = maxIt := by
    decide!
  have hcol : pixelColour float64 m.palette (float64.lit 0) (float64.lit 0) (float64.lit 4)
      250 250 = some ⟨0, 0, 0, 0⟩ := by
    unfold pixelColour
    simp only [hit, lt_irrefl, if_false]
  obtain ⟨m', hu, hb⟩ :=
    updateOffscreen_colour float64 m (float64.lit 0) (float64.lit 0) (float64.lit 4) hpal hlen
  have hbytes := hb 250 250 _ (by decide) (by decide) hcol
  exact ⟨rfl, rfl, hcentre, by decide!, by decide!, hit,
    ⟨m', hu, hbytes 0 (by decide), hbytes 1 (by decide), hbytes 2 (by decide),
      hbytes 3 (by decide)⟩,
    by decide!, by decide!, by decide!, by decide!⟩

theorem centre_pixel_samples_view_centre_witness :
    sampleState64.offscreenPix.length = 500 * 500 * 4 ∧
      maxIt ≤ sampleState64.palette.length ∧
      ∃ m', updateOffscreen float64 sampleState64 (float64.lit 0) (float64.lit 0)
          (float64.lit 4) = some m' ∧
        m'.offscreenPix[4 * (250 + 250 * 500)]? = some 0 :=
  have h1 : sampleState64.offscreenPix.length = 500 * 500 * 4 := List.length_replicate _ _
  have h2 : maxIt ≤ sampleState64.palette.length := by decide
  have h := (centre_pixel_samples_view_centre sampleState64 h1 h2).2.2.2.2.2.2.1
  ⟨h1, h2, h.choose, h.choose_spec.1, h.choose_spec.2.1⟩

/-- C12: the palette lookup never goes out of range: the index `it` of `m.palette[it]` at
line 70 is used only when `it < maxIt = 100`, and the palette built by `NewMandelbrot`
has `len(palette.Plan9) = 256 ≥ maxIt` entries (the length 256 of the standard-library
table is the hypothesis), so for every arithmetic, every view and every pixel the lookup
is a valid index, in every state that carries that palette. -/
theorem palette_lookup_in_range {α : Type} (A : Arith α) (plan9 : List RGBA)
    (h256 : plan9.length = 256) (m : Mandelbrot α)
    (hm : m.palette = (NewMandelbrot A plan9).palette) (centerX centerY size : α)
    (j i : Nat) :
    maxIt = 100 ∧ (NewMandelbrot A plan9).palette.length = 256 ∧
      maxIt ≤ (NewMandelbrot A plan9).palette.length ∧
      (iter A (realC A centerX size i) (imagC A centerY size j) < maxIt →
        0 ≤ iter A (realC A centerX size i) (imagC A centerY size j) ∧
        iter A (realC A centerX size i) (imagC A centerY size j) < m.palette.length ∧
        ∃ c, m.palette[iter A (realC A centerX size i) (imagC A centerY size j)]? = some c) ∧
      (pixelColour A m.palette centerX centerY size j i).isSome = true := by
  have hl : (NewMandelbrot A plan9).palette.length = 256 := by
    rw [NewMandelbrot_palette_length, h256]
  have hle : maxIt ≤ m.palette.length := by
    rw [hm, hl]
    decide
  refine ⟨rfl, hl, by rw [hl]; decide, ?_, pixelColour_isSome A m.palette _ _ _ j i hle⟩
  intro hit
  have hlt : iter A (realC A centerX size i) (imagC A centerY size j) < m.palette.length := by
    omega
  exact ⟨Nat.zero_le _, hlt, ⟨_, List.getElem?_eq_getElem hlt⟩⟩

theorem palette_lookup_in_range_witness :
    samplePlan9.length = 256 ∧
      (pixelColour exact (NewMandelbrot exact samplePlan9).palette 0 0 4 0 0).isSome = true :=
  ⟨List.length_replicate _ _,
    (palette_lookup_in_range exact samplePlan9 (List.length_replicate _ _)
      (NewMandelbrot exact samplePlan9) rfl 0 0 4 0 0).2.2.2.2⟩

/-- C13: in exact arithmetic the zoom size is positive and strictly decreasing: a call of
`Update` that returns replaces zoom by `0.995 * zoom`, which is positive and strictly
smaller when zoom is positive; from the state built by `NewMandelbrot` (`palette.Plan9`
with at least `maxIt` entries) every call returns, zoom is positive before and after call
number `N` for every `N`, and so never is zero. -/
theorem zoom_positive_decreasing (plan9 : List RGBA) (hplan9 : maxIt ≤ plan9.length) (N : Nat) :
    0 < (NewMandelbrot exact plan9).zoom ∧
      (∃ m m', updateN exact N (NewMandelbrot exact plan9) = some m ∧
        Update exact m = some m' ∧ updateN exact (N + 1) (NewMandelbrot exact plan9) = some m' ∧
        0 < m.zoom ∧ m'.zoom = 0.995 * m.zoom ∧ m'.zoom < m.zoom ∧ 0 < m'.zoom ∧
        m'.zoom ≠ 0) ∧
      (∀ m m' : Mandelbrot ℚ, Update exact m = some m' →
        m'.zoom = 0.995 * m.zoom ∧ (0 < m.zoom → m'.zoom < m.zoom ∧ 0 < m'.zoom)) := by
  have hstep : ∀ m m' : Mandelbrot ℚ, Update exact m = some m' →
      m'.zoom = 0.995 * m.zoom ∧ (0 < m.zoom → m'.zoom < m.zoom ∧ 0 < m'.zoom) := by
    intro m m' h
    obtain ⟨r, hr, rfl⟩ := Update_some exact m m' h
    have hz := (updateOffscreen_frame exact m r _ _ _ hr).1
    have e : ({ r with zoom := exact.mul r.zoom (exact.lit 0.995) } : Mandelbrot ℚ).zoom =
        0.995 * m.zoom := by
      show r.zoom * 0.995 = 0.995 * m.zoom
      rw [hz]
      ring
    refine ⟨e, fun hpos => ?_⟩
    rw [e]
    constructor <;> linarith
  refine ⟨by show (0 : ℚ) < 2; norm_num, ?_, hstep⟩
  obtain ⟨m, hm, hz, hp, hl⟩ := updateN_exact plan9 hplan9 N
  have hpal : maxIt ≤ m.palette.length := by
    rw [hp, NewMandelbrot_palette_length]
    exact hplan9
  obtain ⟨m', hm'⟩ := Update_returns exact m hpal hl
  have hpos : 0 < m.zoom := by
    rw [hz]
    positivity
  obtain ⟨e, hlt⟩ := hstep m m' hm'
  refine ⟨m, m', hm, hm', ?_, hpos, e, (hlt hpos).1, (hlt hpos).2, ne_of_gt (hlt hpos).2⟩
  rw [updateN, hm, Option.some_bind]
  exact hm'

theorem zoom_positive_decreasing_witness :
    maxIt ≤ samplePlan9.length ∧
      ∃ m m', updateN exact 2 (NewMandelbrot exact samplePlan9) = some m ∧
        Update exact m = some m' ∧ 0 < m'.zoom ∧ m'.zoom < m.zoom := by
  have h : maxIt ≤ samplePlan9.length := by
    rw [samplePlan9, List.length_replicate]
    decide
  obtain ⟨m, m', h1, h2, _, _, _, h3, h4, _⟩ := (zoom_positive_decreasing samplePlan9 h 2).2.1
  exact ⟨h, m, m', h1, h2, h4, h3⟩

/-- C14: the frame of a tick, for every arithmetic: a call of `Update` that returns has
rendered with the constant centre `(-0.70, 0.25)` and the current zoom as size, has left
the palette (contents and length) and the length of the pixel buffer unchanged, and has
changed the view only by replacing zoom with `zoom * 0.995` after the render (in exact
arithmetic, `0.995 * zoom`); `updateOffscreen` itself never changes zoom or the
palette. -/
theorem Update_tick_frame {α : Type} (A : Arith α) (m m' : Mandelbrot α)
    (h : Update A m = some m') :
    (∃ r, updateOffscreen A m (A.lit (-0.70)) (A.lit 0.25) m.zoom = some r ∧
        m'.offscreenPix = r.offscreenPix ∧ r.zoom = m.zoom ∧ r.palette = m.palette) ∧
      m'.palette = m.palette ∧ m'.palette.length = m.palette.length ∧
      m'.offscreenPix.length = m.offscreenPix.length ∧
      m'.zoom = A.mul m.zoom (A.lit 0.995) ∧
      (∀ (m1 r1 : Mandelbrot α) (centerX centerY size : α),
        updateOffscreen A m1 centerX centerY size = some r1 →
          r1.zoom = m1.zoom ∧ r1.palette = m1.palette) ∧
      (∀ m2 m2' : Mandelbrot ℚ, Update exact m2 = some m2' → m2'.zoom = 0.995 * m2.zoom) := by
  obtain ⟨r, hr, rfl⟩ := Update_some A m m' h
  obtain ⟨hz, hp, hl⟩ := updateOffscreen_frame A m r _ _ _ hr
  refine ⟨⟨r, hr, rfl, hz, hp⟩, hp, by rw [hp], hl, ?_, ?_, ?_⟩
  · show A.mul r.zoom (A.lit 0.995) = A.mul m.zoom (A.lit 0.995)
    rw [hz]
  · intro m1 r1 centerX centerY size h1
    have := updateOffscreen_frame A m1 r1 centerX centerY size h1
    exact ⟨this.1, this.2.1⟩
  · intro m2 m2' h2
    obtain ⟨r2, hr2, rfl⟩ := Update_some exact m2 m2' h2
    have hz2 := (updateOffscreen_frame exact m2 r2 _ _ _ hr2).1
    show r2.zoom * 0.995 = 0.995 * m2.zoom
    rw [hz2]
    ring

theorem Update_tick_frame_witness :
    ∃ m', Update exact sampleState = some m' ∧ m'.palette = sampleState.palette ∧
      m'.offscreenPix.length = sampleState.offscreenPix.length ∧
      m'.zoom = exact.mul sampleState.zoom (exact.lit 0.995) := by
  obtain ⟨m', hm'⟩ := Update_returns exact sampleState (by decide) (List.length_replicate _ _)
  have h := Update_tick_frame exact sampleState m' hm'
  exact ⟨m', hm', h.2.1, h.2.2.2.1, h.2.2.2.2.1⟩

/-- C15, the claim as stated fails on the code: on binary64, with the centre
`(-0.70, 0.25)` of the program and the size `1e-17 > 0`, columns 0 and 499 map to the same
`real_c` and rows 0 and 499 to the same `imag_c`, so neither coordinate is strictly
monotone. -/
theorem coordinates_collapse_float64 :
    float64.gt (float64.lit 1e-17) (float64.lit 0) = true ∧
      realC float64 (float64.lit (-0.70)) (float64.lit 1e-17) 0 =
        realC float64 (float64.lit (-0.70)) (float64.lit 1e-17) 499 ∧
      imagC float64 (float64.lit 0.25) (float64.lit 1e-17) 0 =
        imagC float64 (float64.lit 0.25) (float64.lit 1e-17) 499 ∧
      ¬ (float64.gt (realC float64 (float64.lit (-0.70)) (float64.lit 1e-17) 499)
          (realC float64 (float64.lit (-0.70)) (float64.lit 1e-17) 0) = true) ∧
      ¬ (float64.gt (imagC float64 (float64.lit 0.25) (float64.lit 1e-17) 0)
          (imagC float64 (float64.lit 0.25) (float64.lit 1e-17) 499) = true) := by
  refine ⟨?_, ?_, ?_, ?_, ?_⟩ <;> decide!

/-- C15, amended: the vertical flip, in exact arithmetic (the coordinates evaluated
without rounding): for every view with `size > 0`, row
`py = 0` maps to `imag_c = centerY + size/2` (the top edge of the window) and column
`px = 0` to `real_c = centerX - size/2`; `imag_c` is strictly decreasing in `py` and
`real_c` strictly increasing in `px`; and every sampled coordinate of the 500x500 grid
lies inside the window
`[centerX - size/2, centerX + size/2] x [centerY - size/2, centerY + size/2]`. -/
theorem vertical_flip (centerX centerY size : ℚ) (hs : 0 < size) :
    imagC exact centerY size 0 = centerY + size / 2 ∧
      realC exact centerX size 0 = centerX - size / 2 ∧
      (∀ py py' : Nat, py < py' → imagC exact centerY size py' < imagC exact centerY size py) ∧
      (∀ px px' : Nat, px < px' → realC exact centerX size px < realC exact centerX size px') ∧
      (∀ px py : Nat, px < 500 → py < 500 →
        centerX - size / 2 ≤ realC exact centerX size px ∧
        realC exact centerX size px ≤ centerX + size / 2 ∧
        centerY - size / 2 ≤ imagC exact centerY size py ∧
        imagC exact centerY size py ≤ centerY + size / 2) := by
  refine ⟨?_, ?_, ?_, ?_, ?_⟩
  · rw [imagC_exact]
    push_cast
    ring
  · rw [realC_exact]
    push_cast
    ring
  · intro py py' h
    rw [imagC_exact, imagC_exact]
    have h' : (py : ℚ) < py' := by exact_mod_cast h
    have := mul_lt_mul_of_pos_right h' hs
    linarith
  · intro px px' h
    rw [realC_exact, realC_exact]
    have h' : (px : ℚ) < px' := by exact_mod_cast h
    have := mul_lt_mul_of_pos_right h' hs
    linarith
  · intro px py hpx hpy
    rw [realC_exact, imagC_exact]
    have h0x : (0 : ℚ) ≤ px := Nat.cast_nonneg px
    have h0y : (0 : ℚ) ≤ py := Nat.cast_nonneg py
    have hx : (px : ℚ) < 500 := by exact_mod_cast hpx
    have hy : (py : ℚ) < 500 := by exact_mod_cast hpy
    have h1 := mul_nonneg h0x hs.le
    have h2 := mul_lt_mul_of_pos_right hx hs
    have h3 := mul_nonneg h0y hs.le
    have h4 := mul_lt_mul_of_pos_right hy hs
    refine ⟨?_, ?_, ?_, ?_⟩ <;> linarith

theorem vertical_flip_witness :
    (0 : ℚ) < 2 ∧ imagC exact 0.25 2 0 = 0.25 + 2 / 2 ∧ realC exact (-0.70) 2 0 = -0.70 - 2 / 2 :=
  ⟨by norm_num, (vertical_flip (-0.70) 0.25 2 (by norm_num)).1,
    (vertical_flip (-0.70) 0.25 2 (by norm_num)).2.1⟩

/-- C16: the reference characterisation of the kernel as coded, for every arithmetic:
with `z_0 = 0` and `z_(n+1) = z_n² + c` (`x' = x² − y² + cx`, `y' = 2xy + cy`), for every
`(cx, cy)`, `iter cx cy` is the least index `i` in `[0, maxIt)` at which the test
`|z_i|² > 4` succeeds, and `maxIt = 100` when the test fails for all `i < maxIt` (so only
`z_0 .. z_99` are tested, `z_0` among them). -/
theorem iter_eq_leastEscape {α : Type} (A : Arith α) (cx cy : α) :
    iter A cx cy = leastEscape A cx cy ∧ maxIt = 100 ∧
      orbit A cx cy 0 = (A.lit 0, A.lit 0) ∧
      (∀ n, orbit A cx cy (n + 1) =
        (A.add (A.sub (A.mul (orbit A cx cy n).1 (orbit A cx cy n).1)
            (A.mul (orbit A cx cy n).2 (orbit A cx cy n).2)) cx,
          A.add (A.mul (A.lit 2) (A.mul (orbit A cx cy n).1 (orbit A cx cy n).2)) cy)) ∧
      (∀ i, i < maxIt → outside A (orbit A cx cy i) = true →
        (∀ k, k < i → outside A (orbit A cx cy k) = false) → iter A cx cy = i) ∧
      ((∀ i, i < maxIt → outside A (orbit A cx cy i) = false) → iter A cx cy = maxIt) := by
  refine ⟨?_, rfl, rfl, fun n => rfl, ?_, ?_⟩
  · unfold leastEscape
    rw [List.range_eq_range']
    exact iterLoop_eq_find A cx cy maxIt 0
  · intro i hi hout hk
    exact iterLoop_least A cx cy maxIt 0 i (Nat.zero_le _) (by omega) hout
      (fun k _ hk2 => hk k hk2)
  · intro hk
    exact iterLoop_none A cx cy maxIt 0 (fun k _ hk2 => hk k (by omega))

/-- C17, the claim as stated fails on the code: at `(cx, cy) = (2, 2^-30)`, both exact
doubles, `cx² + cy² = 4 + 2^-60 > 4`, but on binary64 the sum `cx*cx + cy*cy` rounds to 4,
the test on `z_1 = c` fails, and `iter` returns 2, not 1. -/
theorem iter_2_tiny_returns_2 :
    float64.lit 2 = F64.fin false (2 * 2 ^ 1074) ∧
      float64.lit (1 / 2 ^ 30) = F64.fin false (2 ^ 1044) ∧
      (2 : ℚ) ^ 2 + (1 / 2 ^ 30) ^ 2 > 4 ∧
      iter float64 (float64.lit 2) (float64.lit (1 / 2 ^ 30)) = 2 ∧
      ¬ (iter float64 (float64.lit 2) (float64.lit (1 / 2 ^ 30)) = 1 ↔
        (2 : ℚ) ^ 2 + (1 / 2 ^ 30) ^ 2 > 4) := by
  have h1 : float64.lit 2 = F64.fin false (2 * 2 ^ 1074) := by decide!
  have h2 : float64.lit (1 / 2 ^ 30) = F64.fin false (2 ^ 1044) := by decide!
  have h3 : (2 : ℚ) ^ 2 + (1 / 2 ^ 30) ^ 2 > 4 := by norm_num
  have h4 : iter float64 (float64.lit 2) (float64.lit (1 / 2 ^ 30)) = 2 := by decide!
  refine ⟨h1, h2, h3, h4, ?_⟩
  rw [h4]
  intro h
  exact absurd (h.2 h3) (by decide)

/-- C17, amended: `iter` never returns 0: in every arithmetic in which the test
`0*0 + 0*0 > 4` fails (binary64 and exact arithmetic are such), for every `(cx, cy)`,
`iter cx cy ≥ 1`, and `iter cx cy = 1` if and only if the test `x*x + y*y > 4` succeeds
on the first iterate `z_1`, the point that one update makes of `z_0 = 0`; in exact
arithmetic `z_1 = c` and the test is `cx² + cy² > 4`.  Consequently no pixel looks up
palette entry 0, and the frame that `updateOffscreen` produces is the same whatever that
entry is. -/
theorem iter_never_zero {α : Type} (A : Arith α)
    (hz : A.gt (A.add (A.mul (A.lit 0) (A.lit 0)) (A.mul (A.lit 0) (A.lit 0))) (A.lit 4) = false)
    (cx cy : α) :
    1 ≤ iter A cx cy ∧ iter A cx cy ≠ 0 ∧
      (iter A cx cy = 1 ↔ outside A (orbit A cx cy 1) = true) ∧
      (∀ (m : Mandelbrot α) (c0 c0' : RGBA) (rest : List RGBA) (centerX centerY size : α),
        (updateOffscreen A { m with palette := c0 :: rest } centerX centerY size).map
            (fun r => r.offscreenPix) =
          (updateOffscreen A { m with palette := c0' :: rest } centerX centerY size).map
            (fun r => r.offscreenPix)) ∧
      (∀ qx qy : ℚ, orbit exact qx qy 1 = (qx, qy) ∧
        (iter exact qx qy = 1 ↔ qx ^ 2 + qy ^ 2 > 4)) := by
  have h1 := iter_ge_one A hz cx cy
  refine ⟨h1, by omega, iter_eq_one_iff A hz cx cy, ?_, ?_⟩
  · intro m c0 c0' rest centerX centerY size
    unfold updateOffscreen
    simp only [Option.map_map]
    rw [runRows_cons A hz c0 c0']
    rfl
  · intro qx qy
    constructor
    · simp [orbit, orbitStep, exact]
    · rw [iter_exact_eq_one_iff, sq, sq]

theorem iter_never_zero_witness :
    float64.gt (float64.add (float64.mul (float64.lit 0) (float64.lit 0))
        (float64.mul (float64.lit 0) (float64.lit 0))) (float64.lit 4) = false ∧
      1 ≤ iter float64 (float64.lit 2) (float64.lit (1 / 2 ^ 30)) ∧
      (iter float64 (float64.lit 2) (float64.lit 2) = 1 ↔
        outside float64 (orbit float64 (float64.lit 2) (float64.lit 2) 1) = true) :=
  ⟨float64_origin_test,
    (iter_never_zero float64 float64_origin_test (float64.lit 2) (float64.lit (1 / 2 ^ 30))).1,
    (iter_never_zero float64 float64_origin_test (float64.lit 2) (float64.lit 2)).2.2.1⟩

/-- C18: the kernel is symmetric about the real axis (exact arithmetic): for every
`(cx, cy)`, `iter(cx, -cy) = iter(cx, cy)`; conjugating `c` conjugates every point of
the orbit, which leaves `x² + y²` and so every test unchanged. -/
theorem iter_conj_symmetric (cx cy : ℚ) :
    iter exact cx (-cy) = iter exact cx cy ∧
      (∀ n, orbit exact cx (-cy) n = ((orbit exact cx cy n).1, -(orbit exact cx cy n).2)) ∧
      (∀ n, outside exact (orbit exact cx (-cy) n) = outside exact (orbit exact cx cy n)) := by
  refine ⟨?_, orbit_conj cx cy, ?_⟩
  · have h := iterLoop_conj cx cy maxIt 0 0 0
    rw [neg_zero] at h
    exact h
  · intro n
    rw [orbit_conj]
    simp [outside, exact]

/-- C19: palette construction preserves the reference colours: `NewMandelbrot` builds a
palette of exactly `len(palette.Plan9)` entries, and when every channel of the reference
table is an 8-bit value, truncating the 16-bit value `v | v<<8` that `RGBA()` returns to
`uint8` gives back `v`, so `palette[i]` has the same R, G, B, A as reference entry `i`,
for every index `i`. -/
theorem NewMandelbrot_palette_preserves {α : Type} (A : Arith α) (plan9 : List RGBA)
    (h8 : ∀ c ∈ plan9, c.R < 256 ∧ c.G < 256 ∧ c.B < 256 ∧ c.A < 256) :
    (NewMandelbrot A plan9).palette.length = plan9.length ∧
      (∀ v, v < 256 → uint8 (v ||| (v <<< 8)) = v) ∧
      (∀ i : Nat, (NewMandelbrot A plan9).palette[i]? = plan9[i]?) ∧
      (NewMandelbrot A plan9).palette = plan9 := by
  have e := NewMandelbrot_palette_eq A plan9 h8
  exact ⟨NewMandelbrot_palette_length A plan9, uint8_rgba16, fun i => by rw [e], e⟩

theorem NewMandelbrot_palette_preserves_witness :
    (∀ c ∈ samplePlan9, c.R < 256 ∧ c.G < 256 ∧ c.B < 256 ∧ c.A < 256) ∧
      (NewMandelbrot exact samplePlan9).palette = samplePlan9 := by
  have h : ∀ c ∈ samplePlan9, c.R < 256 ∧ c.G < 256 ∧ c.B < 256 ∧ c.A < 256 := by
    intro c hc
    have e : c = ⟨0, 0, 0, 255⟩ := List.eq_of_mem_replicate hc
    subst e
    decide
  exact ⟨h, (NewMandelbrot_palette_preserves exact samplePlan9 h).2.2.2⟩

end Mandelzoom
